import Mathlib

/-!
Shallow embedding of the core of the RabbitMQ management UI repository
(`src/lib/api.ts`, `src/lib/credentialsManager.ts`): the broker data model,
the provisioning orchestrator (`createSystem`), the discovery and teardown
orchestrator (`getManagedSystems`, `deleteSystem`), the vhost-cache client
state, and the template renderer (`renderTemplate`).

Modelling conventions:
* All operations are scoped to a single vhost, so the vhost string argument
  of the TypeScript methods is dropped and a `BrokerState` models the
  queues / exchanges / bindings of that one vhost.
* Argument maps (`arguments?: Record<string, any>`) on queues, exchanges and
  bindings are modelled as association lists `List (String × String)`;
  the only argument values the verified code inspects are the string-valued
  `x-manage-*` metadata keys.  An absent map is the empty list.
  JavaScript string truthiness (`if (systemId)`) is `s ≠ ""`.
* Broker-side effects of deletions follow the RabbitMQ semantics the spec
  relies on: deleting a queue removes the bindings whose destination is that
  queue, deleting an exchange removes the bindings in which it appears as
  source (or as destination of an exchange-to-exchange binding).
* The `try { await this.deleteExchange(...) } catch` in the teardown loop is
  modelled by an oracle `fail : String → Bool` telling which exchange
  deletions the broker rejects; a rejected deletion leaves the state
  unchanged and the exchange is kept as remaining, exactly as the catch
  branch does.
-/

/-- Association-list lookup for JS object property access: first binding of
the key wins (JS objects have unique keys). -/
def lookupArg (args : List (String × String)) (k : String) : Option String :=
  (args.find? (fun p => p.1 = k)).map (fun p => p.2)

/-- JavaScript truthiness of an optional string-valued argument:
`undefined` and the empty string are falsy. -/
def truthy : Option String → Bool
  | none => false
  | some s => s ≠ ""

/-- Queue as returned by the management API, restricted to the fields the
verified code reads or writes. -/
structure BQueue where
  name : String
  durable : Bool
  auto_delete : Bool
  args : List (String × String)
deriving DecidableEq, Repr

/-- Exchange as returned by the management API, with the fields `createSystem`
writes and `deleteSystem` / `getManagedSystems` read. -/
structure BExchange where
  name : String
  etype : String
  durable : Bool
  auto_delete : Bool
  internal : Bool
  args : List (String × String)
deriving DecidableEq, Repr

/-- Destination kind of a binding. -/
inductive DestKind where
  | queue
  | exchange
deriving DecidableEq, Repr

/-- Binding as returned by the management API. -/
structure BBinding where
  source : String
  destination : String
  destKind : DestKind
  routing_key : String
  args : List (String × String)
deriving DecidableEq, Repr

/-- State of one vhost on the broker. -/
structure BrokerState where
  queues : List BQueue
  exchanges : List BExchange
  bindings : List BBinding
deriving DecidableEq, Repr

/-- Broker effect of `DELETE /queues/{vhost}/{name}`: the queue disappears
together with the bindings whose destination is that queue. -/
def deleteQueueState (st : BrokerState) (name : String) : BrokerState :=
  { queues := st.queues.filter (fun q => q.name ≠ name)
    exchanges := st.exchanges
    bindings := st.bindings.filter
      (fun b => ¬(b.destination = name ∧ b.destKind = DestKind.queue)) }

/-- Broker effect of `DELETE /exchanges/{vhost}/{name}`: the exchange
disappears together with every binding in which it is the source, and every
exchange-to-exchange binding in which it is the destination. -/
def deleteExchangeState (st : BrokerState) (name : String) : BrokerState :=
  { queues := st.queues
    exchanges := st.exchanges.filter (fun e => e.name ≠ name)
    bindings := st.bindings.filter
      (fun b => b.source ≠ name ∧
        ¬(b.destination = name ∧ b.destKind = DestKind.exchange)) }

/-- JS `Set` insertion: append the element unless it is already present
(iteration order of a `Set` is insertion order). -/
def insertUnique (l : List String) (s : String) : List String :=
  if s ∈ l then l else l ++ [s]

/-- Queues of the system, as `getSystemResources` filters them:
`q.arguments?.['x-manage-system-id'] === systemId`. -/
def systemQueues (st : BrokerState) (systemId : String) : List BQueue :=
  st.queues.filter (fun q => lookupArg q.args "x-manage-system-id" = some systemId)

/-- Step 2 of `deleteSystem`: the names of the exchanges that are bound as
source to any of the system's queues (matching on destination name, exactly
as the code does), collected into a `Set` in binding order. -/
def usedExchangeNames (st : BrokerState) (systemId : String) : List String :=
  st.bindings.foldl
    (fun acc b =>
      if (systemQueues st systemId).any (fun q => q.name = b.destination) then
        insertUnique acc b.source
      else acc)
    []

/-- Step 3 of `deleteSystem`: delete every queue of the system, in list
order. -/
def stateAfterQueueDeletion (st : BrokerState) (systemId : String) : BrokerState :=
  (systemQueues st systemId).foldl (fun s q => deleteQueueState s q.name) st

/-- Step 4 of `deleteSystem`: the distinct truthy `x-manage-system-id`
values of the queues re-fetched after the system's queues were deleted. -/
def existingSystemIds (st : BrokerState) (systemId : String) : List String :=
  (stateAfterQueueDeletion st systemId).queues.foldl
    (fun acc q =>
      match lookupArg q.args "x-manage-system-id" with
      | some id => if id ≠ "" then insertUnique acc id else acc
      | none => acc)
    []

/-- Step 6 of `deleteSystem`: resolve each used exchange name against the
re-fetched exchange list (`allExchanges.find`). -/
def exchangesToCheck (st : BrokerState) (systemId : String) : List BExchange :=
  (usedExchangeNames st systemId).filterMap
    (fun n => (stateAfterQueueDeletion st systemId).exchanges.find? (fun e => e.name = n))

/-- Character-level string prefix test (JS `String.startsWith`). -/
def strHasPfx : List Char → List Char → Bool
  | [], _ => true
  | _ :: _, [] => false
  | c :: cs, d :: ds => c = d && strHasPfx cs ds

/-- Broker-protected exchange check of the teardown loop:
`exchange.name === '' || exchange.name.startsWith('amq.')`. -/
def isSystemExchange (name : String) : Bool :=
  name = "" || strHasPfx "amq.".data name.data

/-- Outcome of one round of the fixed-point deletion loop. -/
structure RoundResult where
  st : BrokerState
  remaining : List BExchange
  deleted : List String
  hasChanges : Bool
deriving DecidableEq, Repr

/-- Body of one `while` round of step 7 of `deleteSystem`: iterate over the
current candidate exchanges against the binding list fetched at the start of
the round (`currentBindings`), skipping broker-protected exchanges, deleting
the candidates with no outgoing binding in the snapshot (unless the broker
rejects the deletion, per the `fail` oracle, in which case the candidate is
kept), and keeping the rest. -/
def deletionRound (fail : String → Bool) (snapshot : List BBinding) :
    List BExchange → BrokerState → RoundResult
  | [], st => ⟨st, [], [], false⟩
  | e :: es, st =>
    if isSystemExchange e.name then
      deletionRound fail snapshot es st
    else if (snapshot.filter (fun b => b.source = e.name)).length = 0 then
      if fail e.name then
        let r := deletionRound fail snapshot es st
        ⟨r.st, e :: r.remaining, r.deleted, r.hasChanges⟩
      else
        let r := deletionRound fail snapshot es (deleteExchangeState st e.name)
        ⟨r.st, r.remaining, e.name :: r.deleted, true⟩
    else
      let r := deletionRound fail snapshot es st
      ⟨r.st, e :: r.remaining, r.deleted, r.hasChanges⟩

/-- Each round returns at most as many remaining candidates as it received,
and strictly fewer whenever the round deleted something. -/
theorem deletionRound_remaining_le (fail : String → Bool)
    (snapshot : List BBinding) (cur : List BExchange) (st : BrokerState) :
    (deletionRound fail snapshot cur st).remaining.length ≤ cur.length ∧
      ((deletionRound fail snapshot cur st).hasChanges = true →
        (deletionRound fail snapshot cur st).remaining.length < cur.length) := by
  induction cur generalizing st with
  | nil => simp [deletionRound]
  | cons e es ih =>
    simp only [deletionRound]
    by_cases hs : isSystemExchange e.name
    · simp only [hs, if_true]
      refine ⟨(ih st).1.trans (by simp), fun hc => lt_of_le_of_lt ((ih st).1) (by simp)⟩
    · simp only [hs, if_false]
      by_cases hb : (snapshot.filter (fun b => b.source = e.name)).length = 0
      · simp only [hb, if_true]
        by_cases hf : fail e.name
        · simp only [hf, if_true, List.length_cons]
          exact ⟨Nat.succ_le_succ (ih st).1,
            fun hc => Nat.succ_lt_succ ((ih st).2 hc)⟩
        · simp only [hf, if_false, List.length_cons]
          exact ⟨Nat.le_succ_of_le (ih (deleteExchangeState st e.name)).1,
            fun _ => Nat.lt_succ_of_le (ih (deleteExchangeState st e.name)).1⟩
      · simp only [hb, if_false, List.length_cons]
        exact ⟨Nat.succ_le_succ (ih st).1, fun hc => Nat.succ_lt_succ ((ih st).2 hc)⟩

/-- Final state of the fixed-point deletion loop: the broker state, the
candidates still remaining, the deleted exchange names in deletion order,
and whether the `while` condition became false within the allotted rounds
(`finished = true` always holds for the budget `deleteSystem` passes, per
the round-bound theorem below). -/
structure LoopResult where
  st : BrokerState
  remaining : List BExchange
  deleted : List String
  finished : Bool
deriving DecidableEq, Repr

/-- Fixed-point deletion loop of step 7 of `deleteSystem`
(`while (hasChanges && currentExchanges.length > 0)`), with `hasChanges`
initially true, unrolled for at most `fuel` rounds.  Each round re-fetches
the binding list from the current broker state. -/
def deletionLoopFuel (fail : String → Bool) :
    Nat → BrokerState → List BExchange → List String → LoopResult
  | 0, st, current, deleted => ⟨st, current, deleted, false⟩
  | fuel + 1, st, current, deleted =>
    if current.isEmpty then ⟨st, current, deleted, true⟩
    else
      let r := deletionRound fail st.bindings current st
      if r.hasChanges then
        deletionLoopFuel fail fuel r.st r.remaining (deleted ++ r.deleted)
      else ⟨r.st, r.remaining, deleted ++ r.deleted, true⟩

/-- Deletion loop with the round budget that the round-bound theorem proves
sufficient: one round per initial candidate plus one final non-deleting
round.  With this budget the loop always reaches the fixed point, so this
equals the unbounded `while` loop of the source. -/
def deletionLoop (fail : String → Bool) (st : BrokerState)
    (current : List BExchange) (deleted : List String) : LoopResult :=
  deletionLoopFuel fail (current.length + 1) st current deleted

/-- Reason a remaining exchange could not be deleted. -/
inductive Reason where
  | has_bindings
  | orphaned_exchange
deriving DecidableEq, Repr

/-- Entry of the `remainingExchanges` list of the deletion report. -/
structure RemainingExchange where
  name : String
  reason : Reason
  bindingCount : Nat
  isManaged : Bool
  createdBy : Option String
deriving DecidableEq, Repr

/-- Report returned by `deleteSystem`. -/
structure DeletionReport where
  deletedQueues : List String
  deletedExchanges : List String
  remainingExchanges : List RemainingExchange
deriving DecidableEq, Repr

/-- Step 9 of `deleteSystem`: classify each exchange left after the loop.
`isManaged` is the truthiness of the `x-manage-system-id` argument,
`createdBy` its raw value; an exchange tagged with a truthy id different
from the deleted system's is `orphaned_exchange` when its creator id is
absent from `existingSystems`, otherwise `has_bindings`. -/
def classifyRemaining (systemId : String) (existingSystems : List String)
    (finalBindings : List BBinding) (cur : List BExchange) :
    List RemainingExchange :=
  cur.map (fun e =>
    let bindingCount := (finalBindings.filter (fun b => b.source = e.name)).length
    match lookupArg e.args "x-manage-system-id" with
    | some id =>
      if id ≠ "" ∧ id ≠ systemId then
        if id ∈ existingSystems then
          ⟨e.name, Reason.has_bindings, bindingCount, true, some id⟩
        else
          ⟨e.name, Reason.orphaned_exchange, bindingCount, true, some id⟩
      else
        ⟨e.name, Reason.has_bindings, bindingCount, id ≠ "", some id⟩
    | none => ⟨e.name, Reason.has_bindings, bindingCount, false, none⟩)

/-- Embedded `deleteSystem(vhost, systemId)`: delete the system's queues,
run the fixed-point exchange deletion loop over the exchanges the system
used, and classify the exchanges that could not be deleted.  Returns the
final broker state together with the deletion report. -/
def deleteSystem (fail : String → Bool) (st : BrokerState) (systemId : String) :
    BrokerState × DeletionReport :=
  let queues := systemQueues st systemId
  let deletedQueues := queues.map (fun q => q.name)
  let st1 := stateAfterQueueDeletion st systemId
  let existingSystems := existingSystemIds st systemId
  let toCheck := exchangesToCheck st systemId
  let r := deletionLoop fail st1 toCheck []
  let finalBindings := r.st.bindings
  (r.st,
    { deletedQueues := deletedQueues
      deletedExchanges := r.deleted
      remainingExchanges :=
        classifyRemaining systemId existingSystems finalBindings r.remaining })

/-! Discovery: `getManagedSystems`. -/

/-- Per-system accumulator of `getManagedSystems` (`systemMap` values). -/
structure SysInfo where
  template : String
  version : String
  createdAt : String
  queueCount : Nat
  exchangeCount : Nat
deriving DecidableEq, Repr

/-- Entry of the list returned by `getManagedSystems`. -/
structure ManagedSystem where
  systemId : String
  template : String
  version : String
  createdAt : String
  queueCount : Nat
  exchangeCount : Nat
deriving DecidableEq, Repr

/-- `Map.has` on the insertion-ordered association list. -/
def mapHas (m : List (String × SysInfo)) (k : String) : Bool :=
  m.any (fun p => p.1 = k)

/-- Update the value stored under a key, in place. -/
def mapUpdate (m : List (String × SysInfo)) (k : String) (f : SysInfo → SysInfo) :
    List (String × SysInfo) :=
  m.map (fun p => if p.1 = k then (p.1, f p.2) else p)

/-- JS `a || b` on an optional string: falsy (`undefined` or empty) falls
back to the default. -/
def orDefault (o : Option String) (d : String) : String :=
  match o with
  | some s => if s ≠ "" then s else d
  | none => d

/-- Queue pass of `getManagedSystems`: a queue contributes only when both
its `x-manage-system-id` and `x-manage-template` arguments are truthy; the
first such queue of an id creates the entry (recording template, version
defaulting to `unknown`, createdAt defaulting to the empty string), and
every such queue increments `queueCount`. -/
def addQueueToMap (m : List (String × SysInfo)) (q : BQueue) :
    List (String × SysInfo) :=
  match lookupArg q.args "x-manage-system-id",
        lookupArg q.args "x-manage-template" with
  | some sid, some tpl =>
    if sid ≠ "" ∧ tpl ≠ "" then
      let m1 :=
        if mapHas m sid then m
        else m ++ [(sid,
          ⟨tpl, orDefault (lookupArg q.args "x-manage-version") "unknown",
            orDefault (lookupArg q.args "x-manage-created-at") "", 0, 0⟩)]
      mapUpdate m1 sid (fun i => { i with queueCount := i.queueCount + 1 })
    else m
  | _, _ => m

/-- Exchange pass of `getManagedSystems`: an exchange with a truthy
`x-manage-system-id` that matches an already-discovered system increments
that system's `exchangeCount`; unmatched or untagged exchanges are
ignored. -/
def addExchangeToMap (m : List (String × SysInfo)) (e : BExchange) :
    List (String × SysInfo) :=
  match lookupArg e.args "x-manage-system-id" with
  | some sid =>
    if sid ≠ "" ∧ mapHas m sid then
      mapUpdate m sid (fun i => { i with exchangeCount := i.exchangeCount + 1 })
    else m
  | none => m

/-- Embedded `getManagedSystems(vhost)`: group the vhost's queues by truthy
system id, attribute exchanges secondarily, and sort descending by
`createdAt` (the source's `localeCompare` is modelled as code-point string
order). -/
def getManagedSystems (st : BrokerState) : List ManagedSystem :=
  let m1 := st.queues.foldl addQueueToMap []
  let m2 := st.exchanges.foldl addExchangeToMap m1
  (m2.map (fun p =>
    (⟨p.1, p.2.template, p.2.version, p.2.createdAt, p.2.queueCount,
      p.2.exchangeCount⟩ : ManagedSystem))).mergeSort
    (fun a b => decide (b.createdAt ≤ a.createdAt))

/-! Provisioning: `createSystem`. -/

/-- `validateIfExists` block of a resource spec: only the declared keys are
compared against the existing resource. -/
structure ResourceValidation where
  etype : Option String
  durable : Option Bool
  auto_delete : Option Bool
  internal : Option Bool
  args : Option (List (String × String))
deriving DecidableEq, Repr

/-- Exchange spec of a rendered system configuration. -/
structure ExchangeSpec where
  name : String
  etype : String
  durable : Bool
  auto_delete : Bool
  internal : Option Bool
  args : List (String × String)
  reuseIfExists : Bool
  validateIfExists : Option ResourceValidation
deriving DecidableEq, Repr

/-- Queue spec of a rendered system configuration. -/
structure QueueSpec where
  name : String
  durable : Bool
  auto_delete : Bool
  args : List (String × String)
  reuseIfExists : Bool
  validateIfExists : Option ResourceValidation
deriving DecidableEq, Repr

/-- Binding spec of a rendered system configuration; a missing
`destination_type` defaults to `queue`. -/
structure BindingSpec where
  source : String
  destination : String
  destKind : Option DestKind
  routing_key : String
  args : List (String × String)
deriving DecidableEq, Repr

/-- Rendered system configuration consumed by `createSystem`. -/
structure SystemConfig where
  vhost : String
  exchanges : List ExchangeSpec
  queues : List QueueSpec
  bindings : List BindingSpec
deriving DecidableEq, Repr

/-- JS boolean rendering used in the mismatch messages. -/
def boolText (b : Bool) : String := if b then "true" else "false"

/-- Mismatch line of `validateResource` for a top-level field. -/
def fieldError (key expected actual : String) : String :=
  key ++ ": 期望 " ++ expected ++ ", 实际 " ++ actual

/-- Mismatch lines of `validateResource` for the `arguments` block:
each declared argument key must match the existing resource's argument
(`JSON.stringify` quoting of the string values). -/
def argErrors (expected : List (String × String))
    (actual : List (String × String)) : List String :=
  expected.foldl
    (fun acc p =>
      if lookupArg actual p.1 = some p.2 then acc
      else acc ++ [p.1 ++ ": 期望 \"" ++ p.2 ++ "\", 实际 " ++
        (match lookupArg actual p.1 with
         | some v => "\"" ++ v ++ "\""
         | none => "undefined")])
    []

/-- `validateResource` over an existing exchange: collect one mismatch line
per declared-and-differing key. -/
def validateExchangeErrors (actual : BExchange) (v : ResourceValidation) :
    List String :=
  (match v.etype with
   | some t => if actual.etype ≠ t then [fieldError "type" t actual.etype] else []
   | none => []) ++
  (match v.durable with
   | some d => if actual.durable ≠ d then
       [fieldError "durable" (boolText d) (boolText actual.durable)] else []
   | none => []) ++
  (match v.auto_delete with
   | some d => if actual.auto_delete ≠ d then
       [fieldError "auto_delete" (boolText d) (boolText actual.auto_delete)] else []
   | none => []) ++
  (match v.internal with
   | some d => if actual.internal ≠ d then
       [fieldError "internal" (boolText d) (boolText actual.internal)] else []
   | none => []) ++
  (match v.args with
   | some ex => argErrors ex actual.args
   | none => [])

/-- `validateResource` over an existing queue. -/
def validateQueueErrors (actual : BQueue) (v : ResourceValidation) :
    List String :=
  (match v.durable with
   | some d => if actual.durable ≠ d then
       [fieldError "durable" (boolText d) (boolText actual.durable)] else []
   | none => []) ++
  (match v.auto_delete with
   | some d => if actual.auto_delete ≠ d then
       [fieldError "auto_delete" (boolText d) (boolText actual.auto_delete)] else []
   | none => []) ++
  (match v.args with
   | some ex => argErrors ex actual.args
   | none => [])

/-- Error message thrown when an existing resource fails validation. -/
def conflictMessage (resourceType resourceName : String) (errs : List String) :
    String :=
  resourceType ++ " \"" ++ resourceName ++ "\" 已存在但不符合要求:\n" ++
    String.intercalate "\n" errs

/-- System id derivation: `{templateName}@{vhost}:{queue_prefix || 'unnamed'}`
(a missing or empty queue-prefix parameter falls back to `unnamed`). -/
def generateSystemId (templateName vhost : String) (qpfx : Option String) :
    String :=
  templateName ++ "@" ++ vhost ++ ":" ++ orDefault qpfx "unnamed"

/-- Ownership metadata injected into every created resource; `now` models
`new Date().toISOString()`. -/
def generateManageMetadata (systemId templateName templateVersion now : String) :
    List (String × String) :=
  [("x-manage-system-id", systemId), ("x-manage-template", templateName),
   ("x-manage-version", templateVersion), ("x-manage-created-at", now)]

/-- JS object assignment `m[k] = v`: overwrite in place or append. -/
def setKeyStr (m : List (String × String)) (k v : String) :
    List (String × String) :=
  if m.any (fun p => p.1 = k) then
    m.map (fun p => if p.1 = k then (p.1, v) else p)
  else m ++ [(k, v)]

/-- JS object spread `{...a, ...b}`: the keys of `b` override those of `a`,
new keys are appended in order. -/
def spreadMerge (a b : List (String × String)) : List (String × String) :=
  b.foldl (fun acc p => setKeyStr acc p.1 p.2) a

/-- Step 1 of `createSystem` (exchange loop): for each spec in order, fetch
the existing exchange by name; reuse (with optional validation) or fail when
it exists, create it with metadata-merged arguments when it does not.
Returns the broker state reached when the loop stops together with the error
thrown, if any. -/
def createExchangesPhase (metadata : List (String × String)) :
    List ExchangeSpec → BrokerState → BrokerState × Option String
  | [], st => (st, none)
  | spec :: rest, st =>
    match st.exchanges.find? (fun e => e.name = spec.name) with
    | some existing =>
      if spec.reuseIfExists then
        match spec.validateIfExists with
        | some v =>
          let errs := validateExchangeErrors existing v
          if errs.isEmpty then createExchangesPhase metadata rest st
          else (st, some (conflictMessage "交换机" spec.name errs))
        | none => createExchangesPhase metadata rest st
      else (st, some ("交换机 \"" ++ spec.name ++ "\" 已存在，无法创建"))
    | none =>
      createExchangesPhase metadata rest
        { st with exchanges := st.exchanges ++
            [⟨spec.name, spec.etype, spec.durable, spec.auto_delete,
              spec.internal.getD false, spreadMerge spec.args metadata⟩] }

/-- Step 2 of `createSystem` (queue loop), with the same reuse policy; a
`NotFound` from `getQueue` means absence and leads to creation. -/
def createQueuesPhase (metadata : List (String × String)) :
    List QueueSpec → BrokerState → BrokerState × Option String
  | [], st => (st, none)
  | spec :: rest, st =>
    match st.queues.find? (fun q => q.name = spec.name) with
    | some existing =>
      if spec.reuseIfExists then
        match spec.validateIfExists with
        | some v =>
          let errs := validateQueueErrors existing v
          if errs.isEmpty then createQueuesPhase metadata rest st
          else (st, some (conflictMessage "队列" spec.name errs))
        | none => createQueuesPhase metadata rest st
      else (st, some ("队列 \"" ++ spec.name ++ "\" 已存在，无法创建"))
    | none =>
      createQueuesPhase metadata rest
        { st with queues := st.queues ++
            [⟨spec.name, spec.durable, spec.auto_delete,
              spreadMerge spec.args metadata⟩] }

/-- Step 3 of `createSystem` (binding loop): every binding is created, with
the ownership metadata merged into its arguments. -/
def createBindingsPhase (metadata : List (String × String))
    (specs : List BindingSpec) (st : BrokerState) : BrokerState :=
  specs.foldl
    (fun s b =>
      { s with bindings := s.bindings ++
          [⟨b.source, b.destination, b.destKind.getD DestKind.queue,
            b.routing_key, spreadMerge b.args metadata⟩] })
    st

/-- Embedded `createSystem(config, templateName, templateVersion, userParams)`:
derive the system id and metadata, then run the exchange, queue and binding
phases in order, stopping at the first thrown error.  The returned state is
the broker state at the moment the operation returned or threw (the source
performs no rollback). -/
def createSystem (cfg : SystemConfig) (templateName templateVersion : String)
    (qpfx : Option String) (now : String) (st : BrokerState) :
    BrokerState × Option String :=
  let systemId := generateSystemId templateName cfg.vhost qpfx
  let metadata := generateManageMetadata systemId templateName templateVersion now
  match createExchangesPhase metadata cfg.exchanges st with
  | (st1, some err) => (st1, some err)
  | (st1, none) =>
    match createQueuesPhase metadata cfg.queues st1 with
    | (st2, some err) => (st2, some err)
    | (st2, none) => (createBindingsPhase metadata cfg.bindings st2, none)

/-! Broker gateway client state: credentials and the vhost-list cache. -/

/-- Vhost record returned by `/vhosts`, restricted to its name. -/
structure VHost where
  name : String
deriving DecidableEq, Repr

/-- In-memory state of the `RabbitMQClient` singleton: the credential pair
and the vhost-list cache.  The pending promise `vhostsCachePromise` is
modelled by the flag `vhostsFetchPending` (`promise !== null`). -/
structure ClientState where
  username : String
  password : String
  vhostsCache : Option (List VHost)
  vhostsFetchPending : Bool
deriving DecidableEq, Repr

/-- Freshly constructed client: empty credentials, empty cache. -/
def initialClientState : ClientState := ⟨"", "", none, false⟩

/-- `setCredentials(username, password)`: replace the credentials and clear
the cache (`clearCache()` is called). -/
def setCredentials (u p : String) (_st : ClientState) : ClientState :=
  ⟨u, p, none, false⟩

/-- `clearCache()`. -/
def clearCache (st : ClientState) : ClientState :=
  { st with vhostsCache := none, vhostsFetchPending := false }

/-- `clearCredentials()`: blank both credential fields; the cache fields are
not touched. -/
def clearCredentials (st : ClientState) : ClientState :=
  { st with username := "", password := "" }

/-- `hasCredentials()`: both fields truthy. -/
def hasCredentials (st : ClientState) : Bool :=
  st.username ≠ "" && st.password ≠ ""

/-- Credential guard at the top of `request`: without credentials every
gateway call throws this error before any network activity. -/
def requestGuard (st : ClientState) : Except String Unit :=
  if hasCredentials st then Except.ok ()
  else Except.error "未设置凭证，请先调用 setCredentials()"

/-- Synchronous outcome of one `getVhosts()` call. -/
inductive VhostsStep where
  | cached (l : List VHost)
  | pending
  | fetchStarted
deriving DecidableEq, Repr

/-- Synchronous part of `getVhosts()`: a populated cache is returned
immediately; an in-flight fetch is joined (`return this.vhostsCachePromise`)
without a new request; otherwise a new fetch is started and recorded as
pending. -/
def getVhostsStep (st : ClientState) : ClientState × VhostsStep :=
  match st.vhostsCache with
  | some l => (st, VhostsStep.cached l)
  | none =>
    if st.vhostsFetchPending then (st, VhostsStep.pending)
    else ({ st with vhostsFetchPending := true }, VhostsStep.fetchStarted)

/-- Settlement of the in-flight vhost fetch: the `.then` handler stores the
result in the cache and nulls the promise; the `.catch` handler nulls the
promise only. -/
def resolveVhostsFetch (st : ClientState) (result : Except String (List VHost)) :
    ClientState :=
  match result with
  | Except.ok l => { st with vhostsCache := some l, vhostsFetchPending := false }
  | Except.error _ => { st with vhostsFetchPending := false }

/-! Template engine: `renderTemplate` of `credentialsManager.ts`. -/

/-- JSON-like value tree of a parsed template / parameter values; numbers
are modelled as integers (the only numeric values the verified properties
use). -/
inductive JVal where
  | str : String → JVal
  | num : Int → JVal
  | bool : Bool → JVal
  | null : JVal
  | arr : List JVal → JVal
  | obj : List (String × JVal) → JVal
deriving Repr

mutual
/-- JS `String(value)` used when a placeholder is embedded in a longer
string, together with the array-join stringification where `null` elements
become empty. -/
def jvalToString : JVal → String
  | JVal.str s => s
  | JVal.num n => toString n
  | JVal.bool b => if b then "true" else "false"
  | JVal.null => "null"
  | JVal.arr l => jlistToString l
  | JVal.obj _ => "[object Object]"

def jlistToString : List JVal → String
  | [] => ""
  | [JVal.null] => ""
  | [x] => jvalToString x
  | JVal.null :: xs => "," ++ jlistToString xs
  | x :: xs => jvalToString x ++ "," ++ jlistToString xs
end

/-- Association-list lookup for JS object access on parameter values. -/
def lookupJV (m : List (String × JVal)) (k : String) : Option JVal :=
  (m.find? (fun p => p.1 = k)).map (fun p => p.2)

/-- JS object assignment on parameter-value maps. -/
def setKeyJV (m : List (String × JVal)) (k : String) (v : JVal) :
    List (String × JVal) :=
  if m.any (fun p => p.1 = k) then
    m.map (fun p => if p.1 = k then (p.1, v) else p)
  else m ++ [(k, v)]

/-- Parameter declaration of a template, restricted to what `renderTemplate`
reads: the name and the optional default value. -/
structure TParam where
  name : String
  default : Option JVal
deriving Repr

/-- Template as consumed by `renderTemplate`: the parameter declarations and
the three resource lists (`template.exchanges || []` etc.), each resource
being a JSON tree. -/
structure QueueTemplate where
  parameters : List TParam
  exchanges : List JVal
  queues : List JVal
  bindings : List JVal
deriving Repr

/-- Rendered system configuration. -/
structure RenderedConfig where
  exchanges : List JVal
  queues : List JVal
  bindings : List JVal
deriving Repr

/-- Merged parameter values (`finalValues`): explicit values win over
declared defaults, parameters with neither are absent. -/
def mergeValues (params : List TParam) (values : List (String × JVal)) :
    List (String × JVal) :=
  params.foldl
    (fun fv p =>
      match lookupJV values p.name with
      | some v => setKeyJV fv p.name v
      | none =>
        match p.default with
        | some d => setKeyJV fv p.name d
        | none => fv)
    []

/-- Word character of the `\w` regex class. -/
def isWordChar (c : Char) : Bool := c.isAlphanum || c = '_'

/-- Longest `\w*` run at the head of the character list, with the rest. -/
def takeWord : List Char → List Char × List Char
  | [] => ([], [])
  | c :: cs =>
    if isWordChar c then
      let r := takeWord cs
      (c :: r.1, r.2)
    else ([], c :: cs)

/-- Unconsumed remainder of `takeWord` is no longer than the input. -/
theorem takeWord_snd_length_le (l : List Char) :
    (takeWord l).2.length ≤ l.length := by
  induction l with
  | nil => simp [takeWord]
  | cons c cs ih =>
    simp only [takeWord]
    by_cases h : isWordChar c
    · simpa [h] using ih.trans (Nat.le_succ _)
    · simp [h]

/-- Match of the whole-string regex `^\$\{(\w+)\}$`: the entire string is a
single placeholder and its parameter name is returned. -/
def singleTokenName (s : String) : Option String :=
  match s.data with
  | '$' :: '\x7b' :: rest =>
    match takeWord rest with
    | (w, ['\x7d']) => if w.isEmpty then none else some (String.mk w)
    | _ => none
  | _ => none

/-- Substitution text of an embedded placeholder:
`value !== undefined ? String(value) : ''`. -/
def substText (fv : List (String × JVal)) (w : String) : String :=
  match lookupJV fv w with
  | some v => jvalToString v
  | none => ""

/-- Global replacement of the regex `\$\{(\w+)\}`: left-to-right scan, each
matched placeholder replaced by its substitution text, unmatched characters
copied. -/
def replaceScan (fv : List (String × JVal)) : List Char → List Char
  | [] => []
  | '$' :: '\x7b' :: rest =>
    match h : takeWord rest with
    | (w, '\x7d' :: r2) =>
      if w.isEmpty then '$' :: replaceScan fv ('\x7b' :: rest)
      else (substText fv (String.mk w)).data ++ replaceScan fv r2
    | _ => '$' :: replaceScan fv ('\x7b' :: rest)
  | c :: cs => c :: replaceScan fv cs
termination_by l => l.length
decreasing_by
  · simp
  · have := takeWord_snd_length_le rest
    rw [h] at this
    simp at this ⊢
    omega
  · simp
  · simp

mutual
/-- Recursive substitution `replaceParams` of `renderTemplate`: a string
that is exactly one placeholder resolves to the parameter's native value
(empty string when the parameter is absent); any other string has each
embedded placeholder replaced textually; numbers are returned as-is; arrays
and objects are mapped recursively; other values are returned unchanged. -/
def replaceParams (fv : List (String × JVal)) : JVal → JVal
  | JVal.str s =>
    match singleTokenName s with
    | some nm =>
      match lookupJV fv nm with
      | some v => v
      | none => JVal.str ""
    | none => JVal.str (String.mk (replaceScan fv s.data))
  | JVal.num n => JVal.num n
  | JVal.arr l => JVal.arr (replaceParamsList fv l)
  | JVal.obj l => JVal.obj (replaceParamsObj fv l)
  | JVal.bool b => JVal.bool b
  | JVal.null => JVal.null

/-- Substitution mapped over an array. -/
def replaceParamsList (fv : List (String × JVal)) : List JVal → List JVal
  | [] => []
  | x :: xs => replaceParams fv x :: replaceParamsList fv xs

/-- Substitution mapped over the values of an object. -/
def replaceParamsObj (fv : List (String × JVal)) :
    List (String × JVal) → List (String × JVal)
  | [] => []
  | (k, v) :: xs => (k, replaceParams fv v) :: replaceParamsObj fv xs
end

/-- Embedded `renderTemplate(template, values)`: merge explicit values over
declared defaults, then substitute placeholders throughout the (deep-copied)
exchange, queue and binding lists. -/
def renderTemplate (t : QueueTemplate) (values : List (String × JVal)) :
    RenderedConfig :=
  let fv := mergeValues t.parameters values
  ⟨replaceParamsList fv t.exchanges,
   replaceParamsList fv t.queues,
   replaceParamsList fv t.bindings⟩

/-! Lemmas about the deletion round, the loop, and `deleteSystem`. -/

/-- Exchange membership is preserved by deleting a differently-named
exchange. -/
theorem mem_deleteExchangeState {st : BrokerState} {e : BExchange}
    (he : e ∈ st.exchanges) (n : String) (hn : e.name ≠ n) :
    e ∈ (deleteExchangeState st n).exchanges := by
  simp only [deleteExchangeState, List.mem_filter, decide_eq_true_eq]
  exact ⟨he, hn⟩

/-- Round equation: a broker-protected candidate is skipped. -/
theorem deletionRound_cons_skip {fail : String → Bool}
    {snapshot : List BBinding} {e : BExchange} {es : List BExchange}
    {st : BrokerState} (hs : isSystemExchange e.name = true) :
    deletionRound fail snapshot (e :: es) st = deletionRound fail snapshot es st := by
  simp [deletionRound, hs]

/-- Round equation: an unbound candidate whose deletion succeeds. -/
theorem deletionRound_cons_delete {fail : String → Bool}
    {snapshot : List BBinding} {e : BExchange} {es : List BExchange}
    {st : BrokerState} (hs : isSystemExchange e.name = false)
    (hb : (snapshot.filter (fun b => b.source = e.name)).length = 0)
    (hf : fail e.name = false) :
    deletionRound fail snapshot (e :: es) st =
      { st := (deletionRound fail snapshot es (deleteExchangeState st e.name)).st
        remaining := (deletionRound fail snapshot es (deleteExchangeState st e.name)).remaining
        deleted := e.name ::
          (deletionRound fail snapshot es (deleteExchangeState st e.name)).deleted
        hasChanges := true } := by
  simp [deletionRound, hs, hb, hf]

/-- Round equation: an unbound candidate whose deletion the broker
rejects. -/
theorem deletionRound_cons_fail {fail : String → Bool}
    {snapshot : List BBinding} {e : BExchange} {es : List BExchange}
    {st : BrokerState} (hs : isSystemExchange e.name = false)
    (hb : (snapshot.filter (fun b => b.source = e.name)).length = 0)
    (hf : fail e.name = true) :
    deletionRound fail snapshot (e :: es) st =
      { st := (deletionRound fail snapshot es st).st
        remaining := e :: (deletionRound fail snapshot es st).remaining
        deleted := (deletionRound fail snapshot es st).deleted
        hasChanges := (deletionRound fail snapshot es st).hasChanges } := by
  simp [deletionRound, hs, hb, hf]

/-- Round equation: a candidate that still has bindings is kept. -/
theorem deletionRound_cons_keep {fail : String → Bool}
    {snapshot : List BBinding} {e : BExchange} {es : List BExchange}
    {st : BrokerState} (hs : isSystemExchange e.name = false)
    (hb : (snapshot.filter (fun b => b.source = e.name)).length ≠ 0) :
    deletionRound fail snapshot (e :: es) st =
      { st := (deletionRound fail snapshot es st).st
        remaining := e :: (deletionRound fail snapshot es st).remaining
        deleted := (deletionRound fail snapshot es st).deleted
        hasChanges := (deletionRound fail snapshot es st).hasChanges } := by
  simp [deletionRound, hs, hb]

/-- Every exchange remaining after a round was among the round's
candidates. -/
theorem deletionRound_remaining_subset (fail : String → Bool)
    (snapshot : List BBinding) (cur : List BExchange) (st : BrokerState)
    (x : BExchange) (hx : x ∈ (deletionRound fail snapshot cur st).remaining) :
    x ∈ cur := by
  induction cur generalizing st with
  | nil => simpa [deletionRound] using hx
  | cons e es ih =>
    by_cases hs : isSystemExchange e.name
    · rw [deletionRound_cons_skip hs] at hx
      exact List.mem_cons_of_mem _ (ih st hx)
    · by_cases hb : (snapshot.filter (fun b => b.source = e.name)).length = 0
      · by_cases hf : fail e.name
        · rw [deletionRound_cons_fail (Bool.of_not_eq_true hs) hb hf] at hx
          rcases List.mem_cons.mp hx with h | hx
          · exact h ▸ List.mem_cons_self _ _
          · exact List.mem_cons_of_mem _ (ih st hx)
        · rw [deletionRound_cons_delete (Bool.of_not_eq_true hs) hb
            (Bool.of_not_eq_true hf)] at hx
          exact List.mem_cons_of_mem _ (ih (deleteExchangeState st e.name) hx)
      · rw [deletionRound_cons_keep (Bool.of_not_eq_true hs) hb] at hx
        rcases List.mem_cons.mp hx with h | hx
        · exact h ▸ List.mem_cons_self _ _
        · exact List.mem_cons_of_mem _ (ih st hx)

/-- No broker-protected exchange survives a round as remaining. -/
theorem deletionRound_remaining_not_system (fail : String → Bool)
    (snapshot : List BBinding) (cur : List BExchange) (st : BrokerState)
    (x : BExchange) (hx : x ∈ (deletionRound fail snapshot cur st).remaining) :
    isSystemExchange x.name = false := by
  induction cur generalizing st with
  | nil => simpa [deletionRound] using hx
  | cons e es ih =>
    by_cases hs : isSystemExchange e.name
    · rw [deletionRound_cons_skip hs] at hx
      exact ih st hx
    · by_cases hb : (snapshot.filter (fun b => b.source = e.name)).length = 0
      · by_cases hf : fail e.name
        · rw [deletionRound_cons_fail (Bool.of_not_eq_true hs) hb hf] at hx
          rcases List.mem_cons.mp hx with h | hx
          · exact h ▸ Bool.of_not_eq_true hs
          · exact ih st hx
        · rw [deletionRound_cons_delete (Bool.of_not_eq_true hs) hb
            (Bool.of_not_eq_true hf)] at hx
          exact ih (deleteExchangeState st e.name) hx
      · rw [deletionRound_cons_keep (Bool.of_not_eq_true hs) hb] at hx
        rcases List.mem_cons.mp hx with h | hx
        · exact h ▸ Bool.of_not_eq_true hs
        · exact ih st hx

/-- Every name a round deletes is the name of a non-protected candidate. -/
theorem deletionRound_deleted_from (fail : String → Bool)
    (snapshot : List BBinding) (cur : List BExchange) (st : BrokerState)
    (n : String) (hn : n ∈ (deletionRound fail snapshot cur st).deleted) :
    ∃ e, e ∈ cur ∧ e.name = n ∧ isSystemExchange n = false := by
  induction cur generalizing st with
  | nil => simpa [deletionRound] using hn
  | cons e es ih =>
    by_cases hs : isSystemExchange e.name
    · rw [deletionRound_cons_skip hs] at hn
      obtain ⟨x, hx, hxn, hxs⟩ := ih st hn
      exact ⟨x, List.mem_cons_of_mem _ hx, hxn, hxs⟩
    · by_cases hb : (snapshot.filter (fun b => b.source = e.name)).length = 0
      · by_cases hf : fail e.name
        · rw [deletionRound_cons_fail (Bool.of_not_eq_true hs) hb hf] at hn
          obtain ⟨x, hx, hxn, hxs⟩ := ih st hn
          exact ⟨x, List.mem_cons_of_mem _ hx, hxn, hxs⟩
        · rw [deletionRound_cons_delete (Bool.of_not_eq_true hs) hb
            (Bool.of_not_eq_true hf)] at hn
          rcases List.mem_cons.mp hn with h | hn
          · exact ⟨e, List.mem_cons_self _ _, h.symm,
              h ▸ Bool.of_not_eq_true hs⟩
          · obtain ⟨x, hx, hxn, hxs⟩ := ih (deleteExchangeState st e.name) hn
            exact ⟨x, List.mem_cons_of_mem _ hx, hxn, hxs⟩
      · rw [deletionRound_cons_keep (Bool.of_not_eq_true hs) hb] at hn
        obtain ⟨x, hx, hxn, hxs⟩ := ih st hn
        exact ⟨x, List.mem_cons_of_mem _ hx, hxn, hxs⟩

/-- An exchange whose name matches no candidate survives the round in the
broker state untouched. -/
theorem deletionRound_preserves (fail : String → Bool)
    (snapshot : List BBinding) (cur : List BExchange) (st : BrokerState)
    (x : BExchange) (hx : x ∈ st.exchanges)
    (hne : ∀ e ∈ cur, x.name ≠ e.name) :
    x ∈ (deletionRound fail snapshot cur st).st.exchanges := by
  induction cur generalizing st with
  | nil => simpa [deletionRound] using hx
  | cons e es ih =>
    have hxe : x.name ≠ e.name := hne e (List.mem_cons_self _ _)
    have hne' : ∀ e' ∈ es, x.name ≠ e'.name :=
      fun e' he' => hne e' (List.mem_cons_of_mem _ he')
    by_cases hs : isSystemExchange e.name
    · rw [deletionRound_cons_skip hs]
      exact ih st hx hne'
    · by_cases hb : (snapshot.filter (fun b => b.source = e.name)).length = 0
      · by_cases hf : fail e.name
        · rw [deletionRound_cons_fail (Bool.of_not_eq_true hs) hb hf]
          exact ih st hx hne'
        · rw [deletionRound_cons_delete (Bool.of_not_eq_true hs) hb
            (Bool.of_not_eq_true hf)]
          exact ih (deleteExchangeState st e.name)
            (mem_deleteExchangeState hx e.name hxe) hne'
      · rw [deletionRound_cons_keep (Bool.of_not_eq_true hs) hb]
        exact ih st hx hne'

/-- A broker-protected exchange is never touched by a round. -/
theorem deletionRound_preserves_system (fail : String → Bool)
    (snapshot : List BBinding) (cur : List BExchange) (st : BrokerState)
    (x : BExchange) (hx : x ∈ st.exchanges)
    (hxs : isSystemExchange x.name = true) :
    x ∈ (deletionRound fail snapshot cur st).st.exchanges := by
  induction cur generalizing st with
  | nil => simpa [deletionRound] using hx
  | cons e es ih =>
    by_cases hs : isSystemExchange e.name
    · rw [deletionRound_cons_skip hs]
      exact ih st hx
    · by_cases hb : (snapshot.filter (fun b => b.source = e.name)).length = 0
      · by_cases hf : fail e.name
        · rw [deletionRound_cons_fail (Bool.of_not_eq_true hs) hb hf]
          exact ih st hx
        · rw [deletionRound_cons_delete (Bool.of_not_eq_true hs) hb
            (Bool.of_not_eq_true hf)]
          refine ih (deleteExchangeState st e.name)
            (mem_deleteExchangeState hx e.name ?_)
          intro h
          rw [h] at hxs
          exact absurd hxs (by simpa using hs)
      · rw [deletionRound_cons_keep (Bool.of_not_eq_true hs) hb]
        exact ih st hx

/-- With a round budget exceeding the number of candidates, the loop reaches
its fixed point: the `while` condition becomes false before the budget runs
out. -/
theorem deletionLoopFuel_finished (fail : String → Bool) :
    ∀ (fuel : Nat) (st : BrokerState) (cur : List BExchange)
      (del : List String), cur.length < fuel →
      (deletionLoopFuel fail fuel st cur del).finished = true := by
  intro fuel
  induction fuel with
  | zero => intro st cur del h; exact absurd h (Nat.not_lt_zero _)
  | succ fuel ih =>
    intro st cur del h
    rw [deletionLoopFuel]
    by_cases hc : cur.isEmpty
    · simp [hc]
    · simp only [hc, if_false]
      by_cases hch : (deletionRound fail st.bindings cur st).hasChanges
      · simp only [hch, if_true]
        refine ih _ _ _ (lt_of_lt_of_le
          ((deletionRound_remaining_le fail st.bindings cur st).2 hch) ?_)
        exact Nat.lt_succ_iff.mp h
      · simp [hch]

/-- Exchanges remaining after the loop come from the initial candidate
list. -/
theorem deletionLoopFuel_remaining_subset (fail : String → Bool) :
    ∀ (fuel : Nat) (st : BrokerState) (cur : List BExchange)
      (del : List String) (x : BExchange),
      x ∈ (deletionLoopFuel fail fuel st cur del).remaining → x ∈ cur := by
  intro fuel
  induction fuel with
  | zero => intro st cur del x hx; simpa [deletionLoopFuel] using hx
  | succ fuel ih =>
    intro st cur del x hx
    rw [deletionLoopFuel] at hx
    by_cases hc : cur.isEmpty
    · simpa [hc] using hx
    · simp only [hc, if_false] at hx
      by_cases hch : (deletionRound fail st.bindings cur st).hasChanges
      · simp only [hch, if_true] at hx
        exact deletionRound_remaining_subset fail st.bindings cur st x
          (ih _ _ _ x hx)
      · simp only [hch, if_false] at hx
        exact deletionRound_remaining_subset fail st.bindings cur st x hx

/-- No broker-protected exchange is ever remaining after the loop, given a
sufficient round budget. -/
theorem deletionLoopFuel_remaining_not_system (fail : String → Bool) :
    ∀ (fuel : Nat) (st : BrokerState) (cur : List BExchange)
      (del : List String) (x : BExchange), cur.length < fuel →
      x ∈ (deletionLoopFuel fail fuel st cur del).remaining →
      isSystemExchange x.name = false := by
  intro fuel
  induction fuel with
  | zero => intro st cur del x h; exact absurd h (Nat.not_lt_zero _)
  | succ fuel ih =>
    intro st cur del x h hx
    rw [deletionLoopFuel] at hx
    by_cases hc : cur.isEmpty
    · rw [if_pos hc] at hx
      rw [List.isEmpty_iff] at hc
      simp [hc] at hx
    · simp only [hc, if_false] at hx
      by_cases hch : (deletionRound fail st.bindings cur st).hasChanges
      · simp only [hch, if_true] at hx
        refine ih _ _ _ x (lt_of_lt_of_le
          ((deletionRound_remaining_le fail st.bindings cur st).2 hch)
          (Nat.lt_succ_iff.mp h)) hx
      · simp only [hch, if_false] at hx
        exact deletionRound_remaining_not_system fail st.bindings cur st x hx

/-- Every name the loop deletes beyond the accumulator is the name of a
non-protected exchange of the initial candidate list. -/
theorem deletionLoopFuel_deleted_from (fail : String → Bool) :
    ∀ (fuel : Nat) (st : BrokerState) (cur : List BExchange)
      (del : List String) (n : String),
      n ∈ (deletionLoopFuel fail fuel st cur del).deleted →
      n ∈ del ∨ ∃ e, e ∈ cur ∧ e.name = n ∧ isSystemExchange n = false := by
  intro fuel
  induction fuel with
  | zero => intro st cur del n hn; left; simpa [deletionLoopFuel] using hn
  | succ fuel ih =>
    intro st cur del n hn
    rw [deletionLoopFuel] at hn
    by_cases hc : cur.isEmpty
    · left; simpa [hc] using hn
    · simp only [hc, if_false] at hn
      by_cases hch : (deletionRound fail st.bindings cur st).hasChanges
      · simp only [hch, if_true] at hn
        rcases ih _ _ _ n hn with hd | ⟨e, he, hen, hes⟩
        · rcases List.mem_append.mp hd with hd | hd
          · exact Or.inl hd
          · exact Or.inr (deletionRound_deleted_from fail st.bindings cur st n hd)
        · exact Or.inr ⟨e,
            deletionRound_remaining_subset fail st.bindings cur st e he, hen, hes⟩
      · simp only [hch, if_false] at hn
        rcases List.mem_append.mp hn with hd | hd
        · exact Or.inl hd
        · exact Or.inr (deletionRound_deleted_from fail st.bindings cur st n hd)

/-- An exchange whose name matches no candidate survives the whole loop in
the broker state. -/
theorem deletionLoopFuel_preserves (fail : String → Bool) :
    ∀ (fuel : Nat) (st : BrokerState) (cur : List BExchange)
      (del : List String) (x : BExchange),
      x ∈ st.exchanges → (∀ e ∈ cur, x.name ≠ e.name) →
      x ∈ (deletionLoopFuel fail fuel st cur del).st.exchanges := by
  intro fuel
  induction fuel with
  | zero => intro st cur del x hx _; simpa [deletionLoopFuel] using hx
  | succ fuel ih =>
    intro st cur del x hx hne
    rw [deletionLoopFuel]
    by_cases hc : cur.isEmpty
    · simpa [hc] using hx
    · simp only [hc, if_false]
      by_cases hch : (deletionRound fail st.bindings cur st).hasChanges
      · simp only [hch, if_true]
        refine ih _ _ _ x
          (deletionRound_preserves fail st.bindings cur st x hx hne) ?_
        intro e he
        exact hne e (deletionRound_remaining_subset fail st.bindings cur st e he)
      · simp only [hch, if_false]
        exact deletionRound_preserves fail st.bindings cur st x hx hne

/-- A broker-protected exchange survives the whole loop in the broker
state. -/
theorem deletionLoopFuel_preserves_system (fail : String → Bool) :
    ∀ (fuel : Nat) (st : BrokerState) (cur : List BExchange)
      (del : List String) (x : BExchange),
      x ∈ st.exchanges → isSystemExchange x.name = true →
      x ∈ (deletionLoopFuel fail fuel st cur del).st.exchanges := by
  intro fuel
  induction fuel with
  | zero => intro st cur del x hx _; simpa [deletionLoopFuel] using hx
  | succ fuel ih =>
    intro st cur del x hx hxs
    rw [deletionLoopFuel]
    by_cases hc : cur.isEmpty
    · simpa [hc] using hx
    · simp only [hc, if_false]
      by_cases hch : (deletionRound fail st.bindings cur st).hasChanges
      · simp only [hch, if_true]
        exact ih _ _ _ x
          (deletionRound_preserves_system fail st.bindings cur st x hx hxs) hxs
      · simp only [hch, if_false]
        exact deletionRound_preserves_system fail st.bindings cur st x hx hxs

/-- Deleting a system's queues leaves the vhost's exchange list unchanged. -/
theorem stateAfterQueueDeletion_exchanges (st : BrokerState) (systemId : String) :
    (stateAfterQueueDeletion st systemId).exchanges = st.exchanges := by
  rw [stateAfterQueueDeletion]
  generalize systemQueues st systemId = l
  induction l generalizing st with
  | nil => rfl
  | cons q qs ih => exact (ih (deleteQueueState st q.name)).trans rfl

/-- Characterization of a classified remaining-exchange record: it belongs
to some surviving exchange, copies that exchange's name, fresh binding count
and ownership tag, and its reason follows the orphan rule. -/
theorem classifyRemaining_mem (systemId : String) (ex : List String)
    (fb : List BBinding) (cur : List BExchange) (r : RemainingExchange)
    (hr : r ∈ classifyRemaining systemId ex fb cur) :
    ∃ e, e ∈ cur ∧ r.name = e.name ∧
      r.bindingCount = (fb.filter (fun b => b.source = e.name)).length ∧
      r.createdBy = lookupArg e.args "x-manage-system-id" ∧
      ((∃ id, lookupArg e.args "x-manage-system-id" = some id ∧ id ≠ "" ∧
          id ≠ systemId ∧ id ∉ ex) → r.reason = Reason.orphaned_exchange) ∧
      ((∀ id, lookupArg e.args "x-manage-system-id" = some id →
          id = "" ∨ id = systemId ∨ id ∈ ex) →
        r.reason = Reason.has_bindings) := by
  rw [classifyRemaining, List.mem_map] at hr
  obtain ⟨e, he, hfe⟩ := hr
  subst hfe
  refine ⟨e, he, ?_⟩
  simp only []
  rcases hlk : lookupArg e.args "x-manage-system-id" with _ | id
  · simp only [hlk]
    refine ⟨trivial, trivial, trivial, ?_, fun _ => trivial⟩
    rintro ⟨id, h, -⟩
    cases h
  · simp only [hlk]
    split_ifs with hcond hex
    · refine ⟨rfl, rfl, rfl, ?_, fun _ => rfl⟩
      rintro ⟨id', hid', _, _, hnex⟩
      cases Option.some.inj hid'
      exact absurd hex hnex
    · refine ⟨rfl, rfl, rfl, fun _ => rfl, ?_⟩
      intro hall
      rcases hall id rfl with h | h | h
      · exact absurd h hcond.1
      · exact absurd h hcond.2
      · exact absurd h hex
    · refine ⟨rfl, rfl, rfl, ?_, fun _ => rfl⟩
      rintro ⟨id', hid', hne, hns, _⟩
      cases Option.some.inj hid'
      exact hcond ⟨hne, hns⟩

/-- Membership in a JS-`Set` insertion. -/
theorem mem_insertUnique (l : List String) (s x : String) :
    x ∈ insertUnique l s ↔ x ∈ l ∨ x = s := by
  by_cases h : s ∈ l
  · simp only [insertUnique, if_pos h]
    exact ⟨Or.inl, fun hx => hx.elim id (fun he => he ▸ h)⟩
  · simp [insertUnique, if_neg h]

/-- `usedExchangeNames` contains exactly the sources of the pre-deletion
bindings whose destination name matches one of the system's queues. -/
theorem mem_usedExchangeNames (st : BrokerState) (systemId n : String) :
    n ∈ usedExchangeNames st systemId ↔
      ∃ b, b ∈ st.bindings ∧ b.source = n ∧
        ∃ q, q ∈ systemQueues st systemId ∧ q.name = b.destination := by
  rw [usedExchangeNames]
  have key : ∀ (bs : List BBinding) (acc : List String),
      n ∈ bs.foldl
        (fun acc b =>
          if (systemQueues st systemId).any (fun q => q.name = b.destination) then
            insertUnique acc b.source
          else acc) acc ↔
      n ∈ acc ∨ ∃ b, b ∈ bs ∧ b.source = n ∧
        ∃ q, q ∈ systemQueues st systemId ∧ q.name = b.destination := by
    intro bs
    induction bs with
    | nil => intro acc; simp
    | cons b bs ih =>
      intro acc
      rw [List.foldl_cons]
      by_cases hc : (systemQueues st systemId).any (fun q => q.name = b.destination)
      · rw [if_pos hc, ih, mem_insertUnique]
        obtain ⟨q, hq, hqd⟩ := List.any_eq_true.mp hc
        rw [decide_eq_true_eq] at hqd
        constructor
        · rintro (⟨hacc | heq⟩ | ⟨b', hb', hs', q', hq', hd'⟩)
          · exact Or.inl hacc
          · exact Or.inr ⟨b, List.mem_cons_self _ _, heq.symm, q, hq, hqd⟩
          · exact Or.inr ⟨b', List.mem_cons_of_mem _ hb', hs', q', hq', hd'⟩
        · rintro (hacc | ⟨b', hb', hs', q', hq', hd'⟩)
          · exact Or.inl (Or.inl hacc)
          · rcases List.mem_cons.mp hb' with rfl | hb'
            · exact Or.inl (Or.inr hs'.symm)
            · exact Or.inr ⟨b', hb', hs', q', hq', hd'⟩
      · rw [if_neg hc, ih]
        constructor
        · rintro (hacc | ⟨b', hb', hs', q', hq', hd'⟩)
          · exact Or.inl hacc
          · exact Or.inr ⟨b', List.mem_cons_of_mem _ hb', hs', q', hq', hd'⟩
        · rintro (hacc | ⟨b', hb', hs', q', hq', hd'⟩)
          · exact Or.inl hacc
          · rcases List.mem_cons.mp hb' with rfl | hb'
            · exact absurd (List.any_eq_true.mpr
                ⟨q', hq', decide_eq_true hd'⟩) hc
            · exact Or.inr ⟨b', hb', hs', q', hq', hd'⟩
  rw [key]
  simp

/-- Every exchange of the candidate list carries a used exchange name. -/
theorem exchangesToCheck_name_mem (st : BrokerState) (systemId : String)
    (e : BExchange) (he : e ∈ exchangesToCheck st systemId) :
    e.name ∈ usedExchangeNames st systemId := by
  rw [exchangesToCheck, List.mem_filterMap] at he
  obtain ⟨n, hn, hfind⟩ := he
  have hp := List.find?_some hfind
  rw [decide_eq_true_eq] at hp
  exact hp ▸ hn

/-- Result of the teardown fixed-point loop as `deleteSystem` runs it. -/
def teardownLoopResult (fail : String → Bool) (st : BrokerState)
    (systemId : String) : LoopResult :=
  deletionLoop fail (stateAfterQueueDeletion st systemId)
    (exchangesToCheck st systemId) []

/-- Final broker state of `deleteSystem` is the loop's final state. -/
theorem deleteSystem_fst (fail : String → Bool) (st : BrokerState)
    (systemId : String) :
    (deleteSystem fail st systemId).1 = (teardownLoopResult fail st systemId).st :=
  rfl

/-- Deleted-exchange names of the report are the loop's deletions. -/
theorem deleteSystem_deletedExchanges (fail : String → Bool) (st : BrokerState)
    (systemId : String) :
    (deleteSystem fail st systemId).2.deletedExchanges =
      (teardownLoopResult fail st systemId).deleted :=
  rfl

/-- Remaining-exchange records of the report classify the loop's
survivors. -/
theorem deleteSystem_remainingExchanges (fail : String → Bool) (st : BrokerState)
    (systemId : String) :
    (deleteSystem fail st systemId).2.remainingExchanges =
      classifyRemaining systemId (existingSystemIds st systemId)
        (teardownLoopResult fail st systemId).st.bindings
        (teardownLoopResult fail st systemId).remaining :=
  rfl

/-- C1: every entry of `remainingExchanges` reported by `deleteSystem` is
classified by the orphan rule — an exchange tagged with a truthy
`x-manage-system-id` different from the deleted system's whose tag is absent
from `existingSystemIds` gets reason `orphaned_exchange` with `createdBy`
equal to that tag; in every other case (tag equal to the deleted id, tag
still existing, or no truthy tag) the reason is `has_bindings`. -/
theorem deleteSystem_remaining_classification
    (fail : String → Bool) (st : BrokerState) (systemId : String)
    (r : RemainingExchange)
    (hr : r ∈ (deleteSystem fail st systemId).2.remainingExchanges) :
    ∃ e, e ∈ (teardownLoopResult fail st systemId).remaining ∧
      r.name = e.name ∧
      r.createdBy = lookupArg e.args "x-manage-system-id" ∧
      ((∃ id, lookupArg e.args "x-manage-system-id" = some id ∧ id ≠ "" ∧
          id ≠ systemId ∧ id ∉ existingSystemIds st systemId) →
        r.reason = Reason.orphaned_exchange) ∧
      ((∀ id, lookupArg e.args "x-manage-system-id" = some id →
          id = "" ∨ id = systemId ∨ id ∈ existingSystemIds st systemId) →
        r.reason = Reason.has_bindings) := by
  rw [deleteSystem_remainingExchanges] at hr
  obtain ⟨e, he, h1, _, h3, h4, h5⟩ :=
    classifyRemaining_mem systemId (existingSystemIds st systemId)
      (teardownLoopResult fail st systemId).st.bindings
      (teardownLoopResult fail st systemId).remaining r hr
  exact ⟨e, he, h1, h3, h4, h5⟩

/-- Orphan scenario: queue `Q1` belongs to `sysA`; exchange `E3` is tagged
`sysB` (no queues) and bound to `Q1` and to the unmanaged queue `Qx`. -/
def orphanScenario : BrokerState :=
  ⟨[⟨"Q1", true, false, [("x-manage-system-id", "sysA")]⟩,
    ⟨"Qx", true, false, []⟩],
   [⟨"E3", "topic", true, false, false, [("x-manage-system-id", "sysB")]⟩],
   [⟨"E3", "Q1", DestKind.queue, "rk", []⟩,
    ⟨"E3", "Qx", DestKind.queue, "rk", []⟩]⟩

/-- Witness for the classification theorem: deleting `sysA` in the orphan
scenario reports `E3` remaining, and the theorem applies to that record. -/
theorem deleteSystem_remaining_classification_witness :
    ((⟨"E3", Reason.orphaned_exchange, 1, true, some "sysB"⟩ : RemainingExchange) ∈
      (deleteSystem (fun _ => false) orphanScenario "sysA").2.remainingExchanges) ∧
    (∃ e, e ∈ (teardownLoopResult (fun _ => false) orphanScenario "sysA").remaining ∧
      (⟨"E3", Reason.orphaned_exchange, 1, true, some "sysB"⟩ :
        RemainingExchange).name = e.name ∧
      (⟨"E3", Reason.orphaned_exchange, 1, true, some "sysB"⟩ :
        RemainingExchange).createdBy = lookupArg e.args "x-manage-system-id" ∧
      ((∃ id, lookupArg e.args "x-manage-system-id" = some id ∧ id ≠ "" ∧
          id ≠ "sysA" ∧ id ∉ existingSystemIds orphanScenario "sysA") →
        (⟨"E3", Reason.orphaned_exchange, 1, true, some "sysB"⟩ :
          RemainingExchange).reason = Reason.orphaned_exchange) ∧
      ((∀ id, lookupArg e.args "x-manage-system-id" = some id →
          id = "" ∨ id = "sysA" ∨ id ∈ existingSystemIds orphanScenario "sysA") →
        (⟨"E3", Reason.orphaned_exchange, 1, true, some "sysB"⟩ :
          RemainingExchange).reason = Reason.has_bindings)) :=
  ⟨by decide,
   deleteSystem_remaining_classification (fun _ => false) orphanScenario "sysA"
     ⟨"E3", Reason.orphaned_exchange, 1, true, some "sysB"⟩ (by decide)⟩

/-- C2: broker-protected exchanges (the unnamed default exchange and every
reserved-prefix exchange) never appear in `deletedExchanges` or
`remainingExchanges` of a `deleteSystem` report, and they survive on the
broker, regardless of binding state. -/
theorem deleteSystem_protected_excluded
    (fail : String → Bool) (st : BrokerState) (systemId name : String)
    (hp : isSystemExchange name = true) :
    name ∉ (deleteSystem fail st systemId).2.deletedExchanges ∧
    (∀ r ∈ (deleteSystem fail st systemId).2.remainingExchanges, r.name ≠ name) ∧
    (∀ e ∈ st.exchanges, e.name = name →
      e ∈ (deleteSystem fail st systemId).1.exchanges) := by
  refine ⟨?_, ?_, ?_⟩
  · intro hmem
    rw [deleteSystem_deletedExchanges, teardownLoopResult, deletionLoop] at hmem
    rcases deletionLoopFuel_deleted_from fail _ _ _ _ name hmem with h | ⟨_, _, _, hf⟩
    · simp at h
    · rw [hp] at hf
      cases hf
  · intro r hr hname
    rw [deleteSystem_remainingExchanges] at hr
    obtain ⟨e, he, h1, -⟩ :=
      classifyRemaining_mem systemId (existingSystemIds st systemId)
        (teardownLoopResult fail st systemId).st.bindings
        (teardownLoopResult fail st systemId).remaining r hr
    rw [teardownLoopResult, deletionLoop] at he
    have hsys := deletionLoopFuel_remaining_not_system fail _ _ _ _ e
      (Nat.lt_succ_self _) he
    rw [← h1, hname, hp] at hsys
    cases hsys
  · intro e he hen
    rw [deleteSystem_fst, teardownLoopResult, deletionLoop]
    refine deletionLoopFuel_preserves_system fail _ _ _ _ e ?_ (hen ▸ hp)
    rw [stateAfterQueueDeletion_exchanges]
    exact he

/-- Protected-exchange scenario: the default exchange and `amq.direct` are
both bound to the system queue `Q1`; `E1` is the system's own exchange. -/
def protectedScenario : BrokerState :=
  ⟨[⟨"Q1", true, false, [("x-manage-system-id", "sysA")]⟩],
   [⟨"", "direct", true, false, false, []⟩,
    ⟨"amq.direct", "direct", true, false, false, []⟩,
    ⟨"E1", "direct", true, false, false, [("x-manage-system-id", "sysA")]⟩],
   [⟨"", "Q1", DestKind.queue, "", []⟩,
    ⟨"amq.direct", "Q1", DestKind.queue, "k", []⟩,
    ⟨"E1", "Q1", DestKind.queue, "k", []⟩]⟩

/-- Witness for the protected-exchange theorem at `amq.direct` in the
protected scenario. -/
theorem deleteSystem_protected_excluded_witness :
    isSystemExchange "amq.direct" = true ∧
    ("amq.direct" ∉
        (deleteSystem (fun _ => false) protectedScenario "sysA").2.deletedExchanges ∧
      (∀ r ∈ (deleteSystem (fun _ => false) protectedScenario
          "sysA").2.remainingExchanges, r.name ≠ "amq.direct") ∧
      (∀ e ∈ protectedScenario.exchanges, e.name = "amq.direct" →
        e ∈ (deleteSystem (fun _ => false) protectedScenario "sysA").1.exchanges)) :=
  ⟨by decide,
   deleteSystem_protected_excluded (fun _ => false) protectedScenario "sysA"
     "amq.direct" (by decide)⟩

/-- C3: the fixed-point deletion loop makes progress — a round that reports
changes strictly shrinks the candidate list — and with the budget of one
round per initial candidate plus one final round the loop always reaches its
fixed point. -/
theorem deleteSystem_loop_termination (fail : String → Bool) (st : BrokerState)
    (cur : List BExchange) :
    ((deletionRound fail st.bindings cur st).hasChanges = true →
      (deletionRound fail st.bindings cur st).remaining.length < cur.length) ∧
    ∀ del, (deletionLoop fail st cur del).finished = true :=
  ⟨(deletionRound_remaining_le fail st.bindings cur st).2,
   fun del => deletionLoopFuel_finished fail _ st cur del (Nat.lt_succ_self _)⟩

/-- Chain scenario for the loop bound: `EA` feeds `EB`, so the first round
deletes only `EB` and a later round deletes `EA`. -/
def chainScenario : BrokerState :=
  ⟨[],
   [⟨"EA", "topic", true, false, false, []⟩,
    ⟨"EB", "topic", true, false, false, []⟩],
   [⟨"EA", "EB", DestKind.exchange, "", []⟩]⟩

/-- Witness for the loop-termination theorem on the chain scenario. -/
theorem deleteSystem_loop_termination_witness :
    (deletionRound (fun _ => false) chainScenario.bindings
        chainScenario.exchanges chainScenario).hasChanges = true ∧
    (deletionRound (fun _ => false) chainScenario.bindings
        chainScenario.exchanges chainScenario).remaining.length <
      chainScenario.exchanges.length ∧
    (deletionLoop (fun _ => false) chainScenario chainScenario.exchanges
        []).finished = true :=
  ⟨by decide,
   (deleteSystem_loop_termination (fun _ => false) chainScenario
       chainScenario.exchanges).1 (by decide),
   (deleteSystem_loop_termination (fun _ => false) chainScenario
       chainScenario.exchanges).2 []⟩

/-- C10: `deleteSystem` draws its exchange deletions exclusively from the
initially computed used-exchange set (sources of pre-deletion bindings into
the system's queues); reported remaining exchanges also come from that set,
and every exchange outside it — tagged with the deleted system id or not —
survives on the broker untouched. -/
theorem deleteSystem_only_used_exchanges (fail : String → Bool)
    (st : BrokerState) (systemId : String) :
    (∀ n, n ∈ usedExchangeNames st systemId ↔
      ∃ b, b ∈ st.bindings ∧ b.source = n ∧
        ∃ q, q ∈ systemQueues st systemId ∧ q.name = b.destination) ∧
    (∀ n ∈ (deleteSystem fail st systemId).2.deletedExchanges,
      n ∈ usedExchangeNames st systemId) ∧
    (∀ r ∈ (deleteSystem fail st systemId).2.remainingExchanges,
      r.name ∈ usedExchangeNames st systemId) ∧
    (∀ e ∈ st.exchanges, e.name ∉ usedExchangeNames st systemId →
      e ∈ (deleteSystem fail st systemId).1.exchanges) := by
  refine ⟨fun n => mem_usedExchangeNames st systemId n, ?_, ?_, ?_⟩
  · intro n hn
    rw [deleteSystem_deletedExchanges, teardownLoopResult, deletionLoop] at hn
    rcases deletionLoopFuel_deleted_from fail _ _ _ _ n hn with h | ⟨e, he, hen, -⟩
    · simp at h
    · exact hen ▸ exchangesToCheck_name_mem st systemId e he
  · intro r hr
    rw [deleteSystem_remainingExchanges] at hr
    obtain ⟨e, he, h1, -⟩ :=
      classifyRemaining_mem systemId (existingSystemIds st systemId)
        (teardownLoopResult fail st systemId).st.bindings
        (teardownLoopResult fail st systemId).remaining r hr
    rw [teardownLoopResult, deletionLoop] at he
    have := deletionLoopFuel_remaining_subset fail _ _ _ _ e he
    exact h1 ▸ exchangesToCheck_name_mem st systemId e this
  · intro e he hne
    rw [deleteSystem_fst, teardownLoopResult, deletionLoop]
    refine deletionLoopFuel_preserves fail _ _ _ _ e ?_ ?_
    · rw [stateAfterQueueDeletion_exchanges]; exact he
    · intro e' he' heq
      exact hne (heq ▸ exchangesToCheck_name_mem st systemId e' he')

/-- Witness for the used-exchange frame theorem on the orphan scenario:
`E3` was deleted from nobody — it remains — while the conclusion's parts are
exercised on the concrete report. -/
theorem deleteSystem_only_used_exchanges_witness :
    ((⟨"E3", Reason.orphaned_exchange, 1, true, some "sysB"⟩ : RemainingExchange) ∈
      (deleteSystem (fun _ => false) orphanScenario "sysA").2.remainingExchanges) ∧
    ((⟨"E3", Reason.orphaned_exchange, 1, true, some "sysB"⟩ :
        RemainingExchange).name ∈ usedExchangeNames orphanScenario "sysA") :=
  ⟨by decide,
   ((deleteSystem_only_used_exchanges (fun _ => false) orphanScenario
       "sysA").2.2.1) ⟨"E3", Reason.orphaned_exchange, 1, true, some "sysB"⟩
     (by decide)⟩

/-- Branch equation of `addQueueToMap` when both tags are truthy. -/
theorem addQueueToMap_eq_truthy {m : List (String × SysInfo)} {q : BQueue}
    {sid tpl : String}
    (hid : lookupArg q.args "x-manage-system-id" = some sid)
    (htp : lookupArg q.args "x-manage-template" = some tpl)
    (h1 : sid ≠ "") (h2 : tpl ≠ "") :
    addQueueToMap m q =
      mapUpdate
        (if mapHas m sid then m
         else m ++ [(sid,
           ⟨tpl, orDefault (lookupArg q.args "x-manage-version") "unknown",
             orDefault (lookupArg q.args "x-manage-created-at") "", 0, 0⟩)])
        sid (fun i => { i with queueCount := i.queueCount + 1 }) := by
  rw [addQueueToMap, hid, htp]
  simp [h1, h2]

/-- Branch equation of `addQueueToMap` when the queue does not carry both
truthy tags: the accumulator is unchanged. -/
theorem addQueueToMap_eq_skip {m : List (String × SysInfo)} {q : BQueue}
    (h : ¬(∃ sid tpl, lookupArg q.args "x-manage-system-id" = some sid ∧
      lookupArg q.args "x-manage-template" = some tpl ∧ sid ≠ "" ∧ tpl ≠ "")) :
    addQueueToMap m q = m := by
  rw [addQueueToMap]
  rcases hid : lookupArg q.args "x-manage-system-id" with _ | sid
  · rfl
  · rcases htp : lookupArg q.args "x-manage-template" with _ | tpl
    · rfl
    · have : ¬(sid ≠ "" ∧ tpl ≠ "") := fun hc =>
        h ⟨sid, tpl, hid, htp, hc.1, hc.2⟩
      simp [this]

/-- Branch equation of `addExchangeToMap` when the exchange has a truthy
tag matching a discovered system. -/
theorem addExchangeToMap_eq_hit {m : List (String × SysInfo)} {e : BExchange}
    {sid : String}
    (hid : lookupArg e.args "x-manage-system-id" = some sid)
    (h1 : sid ≠ "") (h2 : mapHas m sid = true) :
    addExchangeToMap m e =
      mapUpdate m sid (fun i => { i with exchangeCount := i.exchangeCount + 1 }) := by
  rw [addExchangeToMap, hid]
  simp [h1, h2]

/-- Branch equation of `addExchangeToMap` in every other case. -/
theorem addExchangeToMap_eq_skip {m : List (String × SysInfo)} {e : BExchange}
    (h : ∀ sid, lookupArg e.args "x-manage-system-id" = some sid →
      sid = "" ∨ mapHas m sid = false) :
    addExchangeToMap m e = m := by
  rw [addExchangeToMap]
  rcases hid : lookupArg e.args "x-manage-system-id" with _ | sid
  · rfl
  · rcases h sid hid with h' | h'
    · simp [h']
    · have hni : ¬(sid ≠ "" ∧ mapHas m sid = true) := by
        rintro ⟨-, hc⟩
        rw [h'] at hc
        cases hc
      simp [hni]

/-- Invariant carried by the discovery accumulator: every entry has at least
one counted queue and stems from a queue with truthy id and template tags. -/
def DiscoveryInv (W : BQueue → Prop) (m : List (String × SysInfo)) : Prop :=
  ∀ p ∈ m, 1 ≤ p.2.queueCount ∧ ∃ q, W q ∧
    lookupArg q.args "x-manage-system-id" = some p.1 ∧ p.1 ≠ "" ∧
    ∃ t, lookupArg q.args "x-manage-template" = some t ∧ t ≠ ""

/-- `addQueueToMap` preserves the discovery invariant when the added queue
is in the witness set. -/
theorem addQueueToMap_inv (W : BQueue → Prop) (m : List (String × SysInfo))
    (q : BQueue) (hm : DiscoveryInv W m) (hq : W q) :
    DiscoveryInv W (addQueueToMap m q) := by
  by_cases h : ∃ sid tpl, lookupArg q.args "x-manage-system-id" = some sid ∧
      lookupArg q.args "x-manage-template" = some tpl ∧ sid ≠ "" ∧ tpl ≠ ""
  · obtain ⟨sid, tpl, hid, htp, h1, h2⟩ := h
    rw [addQueueToMap_eq_truthy hid htp h1 h2]
    intro p hp
    rw [mapUpdate, List.mem_map] at hp
    obtain ⟨p', hp', hpe⟩ := hp
    by_cases hk : p'.1 = sid
    · rw [if_pos hk] at hpe
      subst hpe
      by_cases hhas : mapHas m sid
      · rw [if_pos hhas] at hp'
        obtain ⟨hc1, wq, hw, hwl, hne, t, htl, htn⟩ := hm p' hp'
        exact ⟨Nat.le_succ_of_le hc1, wq, hw, hk ▸ hwl, hk ▸ hne, t, htl, htn⟩
      · rw [if_neg hhas] at hp'
        rcases List.mem_append.mp hp' with hin | hfresh
        · obtain ⟨hc1, wq, hw, hwl, hne, t, htl, htn⟩ := hm p' hin
          exact ⟨Nat.le_succ_of_le hc1, wq, hw, hk ▸ hwl, hk ▸ hne, t, htl, htn⟩
        · rcases List.mem_singleton.mp hfresh with rfl
          exact ⟨Nat.le_refl 1, q, hq, hid, h1, tpl, htp, h2⟩
    · rw [if_neg hk] at hpe
      subst hpe
      by_cases hhas : mapHas m sid
      · rw [if_pos hhas] at hp'
        exact hm p' hp'
      · rw [if_neg hhas] at hp'
        rcases List.mem_append.mp hp' with hin | hfresh
        · exact hm p' hin
        · rcases List.mem_singleton.mp hfresh with rfl
          exact absurd rfl hk
  · rw [addQueueToMap_eq_skip h]
    exact hm

/-- `addExchangeToMap` preserves the discovery invariant (it never touches
keys or queue counts). -/
theorem addExchangeToMap_inv (W : BQueue → Prop) (m : List (String × SysInfo))
    (e : BExchange) (hm : DiscoveryInv W m) :
    DiscoveryInv W (addExchangeToMap m e) := by
  by_cases h : ∃ sid, lookupArg e.args "x-manage-system-id" = some sid ∧
      sid ≠ "" ∧ mapHas m sid = true
  · obtain ⟨sid, hid, h1, h2⟩ := h
    rw [addExchangeToMap_eq_hit hid h1 h2]
    intro p hp
    rw [mapUpdate, List.mem_map] at hp
    obtain ⟨p', hp', hpe⟩ := hp
    by_cases hk : p'.1 = sid
    · rw [if_pos hk] at hpe
      subst hpe
      obtain ⟨hc1, wq, hw, hwl, hne, t, htl, htn⟩ := hm p' hp'
      exact ⟨hc1, wq, hw, hk ▸ hwl, hk ▸ hne, t, htl, htn⟩
    · rw [if_neg hk] at hpe
      subst hpe
      exact hm p' hp'
  · rw [addExchangeToMap_eq_skip ?_]
    · exact hm
    · intro sid hid
      by_cases h1 : sid = ""
      · exact Or.inl h1
      · by_cases h2 : mapHas m sid = true
        · exact absurd ⟨sid, hid, h1, h2⟩ h
        · exact Or.inr (Bool.of_not_eq_true h2)

/-- Folding queues from an invariant-satisfying accumulator preserves the
discovery invariant. -/
theorem foldl_addQueueToMap_inv (W : BQueue → Prop) (l : List BQueue)
    (acc : List (String × SysInfo)) (hacc : DiscoveryInv W acc)
    (hl : ∀ q ∈ l, W q) :
    DiscoveryInv W (l.foldl addQueueToMap acc) := by
  induction l generalizing acc with
  | nil => exact hacc
  | cons q qs ih =>
    rw [List.foldl_cons]
    exact ih _ (addQueueToMap_inv W acc q hacc (hl q (List.mem_cons_self _ _)))
      (fun q' hq' => hl q' (List.mem_cons_of_mem _ hq'))

/-- Folding exchanges preserves the discovery invariant. -/
theorem foldl_addExchangeToMap_inv (W : BQueue → Prop) (l : List BExchange)
    (acc : List (String × SysInfo)) (hacc : DiscoveryInv W acc) :
    DiscoveryInv W (l.foldl addExchangeToMap acc) := by
  induction l generalizing acc with
  | nil => exact hacc
  | cons e es ih =>
    rw [List.foldl_cons]
    exact ih _ (addExchangeToMap_inv W acc e hacc)

/-- C8: every system reported by `getManagedSystems` has `queueCount ≥ 1`
and owes its entry to a queue of the vhost carrying truthy
`x-manage-system-id` and `x-manage-template` tags — a system id found only
in exchange tags never yields an entry. -/
theorem getManagedSystems_queueCount_pos (st : BrokerState) (m : ManagedSystem)
    (hm : m ∈ getManagedSystems st) :
    1 ≤ m.queueCount ∧ ∃ q, q ∈ st.queues ∧
      lookupArg q.args "x-manage-system-id" = some m.systemId ∧
      m.systemId ≠ "" ∧
      ∃ t, lookupArg q.args "x-manage-template" = some t ∧ t ≠ "" := by
  rw [getManagedSystems] at hm
  rw [List.mem_mergeSort, List.mem_map] at hm
  obtain ⟨p, hp, hpe⟩ := hm
  have hinv := foldl_addExchangeToMap_inv (fun q => q ∈ st.queues)
    st.exchanges (st.queues.foldl addQueueToMap [])
    (foldl_addQueueToMap_inv _ st.queues []
      (fun p hp => absurd hp (List.not_mem_nil p)) (fun _ hq => hq))
  obtain ⟨hc1, wq, hw, hwl, hne, t, htl, htn⟩ := hinv p hp
  subst hpe
  exact ⟨hc1, wq, hw, hwl, hne, t, htl, htn⟩

/-- Discovery scenario: one queue fully tagged `sysA`; one exchange tagged
`sysA` and one tagged `sysB`, a system with no queues. -/
def discoveryScenario : BrokerState :=
  ⟨[⟨"Q1", true, false,
      [("x-manage-system-id", "sysA"), ("x-manage-template", "tpl"),
       ("x-manage-created-at", "2024-01-01T00:00:00Z")]⟩],
   [⟨"E1", "topic", true, false, false, [("x-manage-system-id", "sysA")]⟩,
    ⟨"E2", "topic", true, false, false, [("x-manage-system-id", "sysB")]⟩],
   []⟩

/-- Witness for the queue-count theorem: the discovery scenario reports
exactly `sysA` (never queue-less `sysB`), with `queueCount = 1`. -/
theorem getManagedSystems_queueCount_pos_witness :
    ((⟨"sysA", "tpl", "unknown", "2024-01-01T00:00:00Z", 1, 1⟩ : ManagedSystem) ∈
      getManagedSystems discoveryScenario) ∧
    (1 ≤ (⟨"sysA", "tpl", "unknown", "2024-01-01T00:00:00Z", 1, 1⟩ :
        ManagedSystem).queueCount ∧
      ∃ q, q ∈ discoveryScenario.queues ∧
        lookupArg q.args "x-manage-system-id" =
          some (⟨"sysA", "tpl", "unknown", "2024-01-01T00:00:00Z", 1, 1⟩ :
            ManagedSystem).systemId ∧
        (⟨"sysA", "tpl", "unknown", "2024-01-01T00:00:00Z", 1, 1⟩ :
          ManagedSystem).systemId ≠ "" ∧
        ∃ t, lookupArg q.args "x-manage-template" = some t ∧ t ≠ "") :=
  ⟨by rw [getManagedSystems, List.mem_mergeSort]; decide,
   getManagedSystems_queueCount_pos discoveryScenario _
     (by rw [getManagedSystems, List.mem_mergeSort]; decide)⟩

/-- C9: a queue carrying a truthy `x-manage-system-id` but no truthy
`x-manage-template` is invisible to discovery — removing it from the vhost
leaves the `getManagedSystems` result unchanged, so it neither creates its
system's entry nor increments any `queueCount`. -/
theorem getManagedSystems_ignores_templateless_queue
    (st : BrokerState) (pre post : List BQueue) (q : BQueue)
    (hq : st.queues = pre ++ q :: post)
    (hid : truthy (lookupArg q.args "x-manage-system-id") = true)
    (htpl : truthy (lookupArg q.args "x-manage-template") = false) :
    getManagedSystems st =
      getManagedSystems ⟨pre ++ post, st.exchanges, st.bindings⟩ := by
  have hnoop : ∀ m, addQueueToMap m q = m := by
    intro m
    apply addQueueToMap_eq_skip
    rintro ⟨sid, tpl, hid', htp', h1, h2⟩
    rw [htp'] at htpl
    simp only [truthy, decide_eq_false_iff_not, not_not] at htpl
    exact h2 htpl
  rw [getManagedSystems, getManagedSystems, hq]
  simp only [List.foldl_append, List.foldl_cons, hnoop]

/-- Scenario for the invisible queue: `Qgood` is fully tagged, `Qpartial`
carries only the system id of `sysC`. -/
def templatelessScenario : BrokerState :=
  ⟨[⟨"Qgood", true, false,
      [("x-manage-system-id", "sysA"), ("x-manage-template", "tpl")]⟩,
    ⟨"Qpartial", true, false, [("x-manage-system-id", "sysC")]⟩],
   [⟨"E1", "topic", true, false, false, [("x-manage-system-id", "sysC")]⟩],
   []⟩

/-- Witness: removing the template-less queue leaves discovery unchanged. -/
theorem getManagedSystems_ignores_templateless_queue_witness :
    templatelessScenario.queues =
      [⟨"Qgood", true, false,
        [("x-manage-system-id", "sysA"), ("x-manage-template", "tpl")]⟩] ++
      (⟨"Qpartial", true, false, [("x-manage-system-id", "sysC")]⟩ : BQueue) :: [] ∧
    truthy (lookupArg
      [(("x-manage-system-id" : String), ("sysC" : String))]
      "x-manage-system-id") = true ∧
    truthy (lookupArg
      [(("x-manage-system-id" : String), ("sysC" : String))]
      "x-manage-template") = false ∧
    getManagedSystems templatelessScenario =
      getManagedSystems
        ⟨[⟨"Qgood", true, false,
            [("x-manage-system-id", "sysA"), ("x-manage-template", "tpl")]⟩] ++ [],
          templatelessScenario.exchanges, templatelessScenario.bindings⟩ :=
  ⟨rfl, by decide, by decide,
   getManagedSystems_ignores_templateless_queue templatelessScenario
     [⟨"Qgood", true, false,
        [("x-manage-system-id", "sysA"), ("x-manage-template", "tpl")]⟩]
     [] ⟨"Qpartial", true, false, [("x-manage-system-id", "sysC")]⟩
     rfl (by decide) (by decide)⟩

/-- Branch equation of the exchange loop: name not taken, create it. -/
theorem createExchangesPhase_cons_create {metadata : List (String × String)}
    {spec : ExchangeSpec} {rest : List ExchangeSpec} {st : BrokerState}
    (hfind : st.exchanges.find? (fun e => e.name = spec.name) = none) :
    createExchangesPhase metadata (spec :: rest) st =
      createExchangesPhase metadata rest
        { st with exchanges := st.exchanges ++
            [⟨spec.name, spec.etype, spec.durable, spec.auto_delete,
              spec.internal.getD false, spreadMerge spec.args metadata⟩] } := by
  rw [createExchangesPhase, hfind]

/-- Branch equation: name taken and reuse forbidden — conflict error. -/
theorem createExchangesPhase_cons_conflict {metadata : List (String × String)}
    {spec : ExchangeSpec} {rest : List ExchangeSpec} {st : BrokerState}
    {ex : BExchange}
    (hfind : st.exchanges.find? (fun e => e.name = spec.name) = some ex)
    (hr : spec.reuseIfExists = false) :
    createExchangesPhase metadata (spec :: rest) st =
      (st, some ("交换机 \"" ++ spec.name ++ "\" 已存在，无法创建")) := by
  rw [createExchangesPhase, hfind]
  simp [hr]

/-- Branch equation: name taken, reuse allowed without validation. -/
theorem createExchangesPhase_cons_reuse {metadata : List (String × String)}
    {spec : ExchangeSpec} {rest : List ExchangeSpec} {st : BrokerState}
    {ex : BExchange}
    (hfind : st.exchanges.find? (fun e => e.name = spec.name) = some ex)
    (hr : spec.reuseIfExists = true) (hv : spec.validateIfExists = none) :
    createExchangesPhase metadata (spec :: rest) st =
      createExchangesPhase metadata rest st := by
  rw [createExchangesPhase, hfind, hv]
  simp [hr]

/-- Branch equation: name taken, reuse with successful validation. -/
theorem createExchangesPhase_cons_validated {metadata : List (String × String)}
    {spec : ExchangeSpec} {rest : List ExchangeSpec} {st : BrokerState}
    {ex : BExchange} {v : ResourceValidation}
    (hfind : st.exchanges.find? (fun e => e.name = spec.name) = some ex)
    (hr : spec.reuseIfExists = true) (hv : spec.validateIfExists = some v)
    (hok : (validateExchangeErrors ex v).isEmpty = true) :
    createExchangesPhase metadata (spec :: rest) st =
      createExchangesPhase metadata rest st := by
  rw [createExchangesPhase, hfind, hv]
  simp [hr, hok]

/-- Branch equation: name taken, reuse with failing validation. -/
theorem createExchangesPhase_cons_invalid {metadata : List (String × String)}
    {spec : ExchangeSpec} {rest : List ExchangeSpec} {st : BrokerState}
    {ex : BExchange} {v : ResourceValidation}
    (hfind : st.exchanges.find? (fun e => e.name = spec.name) = some ex)
    (hr : spec.reuseIfExists = true) (hv : spec.validateIfExists = some v)
    (hbad : (validateExchangeErrors ex v).isEmpty = false) :
    createExchangesPhase metadata (spec :: rest) st =
      (st, some (conflictMessage "交换机" spec.name
        (validateExchangeErrors ex v))) := by
  rw [createExchangesPhase, hfind, hv]
  simp [hr, hbad]

/-- The exchange loop is compositional: after an error-free run over a
first batch of specs, it continues from the reached state. -/
theorem createExchangesPhase_append (metadata : List (String × String))
    (xs ys : List ExchangeSpec) (st st' : BrokerState)
    (hx : createExchangesPhase metadata xs st = (st', none)) :
    createExchangesPhase metadata (xs ++ ys) st =
      createExchangesPhase metadata ys st' := by
  induction xs generalizing st with
  | nil =>
    rw [createExchangesPhase] at hx
    cases hx
    rfl
  | cons spec rest ih =>
    rw [List.cons_append]
    rcases hfind : st.exchanges.find? (fun e => e.name = spec.name) with _ | ex
    · rw [createExchangesPhase_cons_create hfind]
      rw [createExchangesPhase_cons_create hfind] at hx
      exact ih _ hx
    · by_cases hr : spec.reuseIfExists
      · rcases hv : spec.validateIfExists with _ | v
        · rw [createExchangesPhase_cons_reuse hfind hr hv]
          rw [createExchangesPhase_cons_reuse hfind hr hv] at hx
          exact ih _ hx
        · by_cases hok : (validateExchangeErrors ex v).isEmpty
          · rw [createExchangesPhase_cons_validated hfind hr hv hok]
            rw [createExchangesPhase_cons_validated hfind hr hv hok] at hx
            exact ih _ hx
          · rw [createExchangesPhase_cons_invalid hfind hr hv
              (Bool.of_not_eq_true hok)] at hx
            cases hx
      · rw [createExchangesPhase_cons_conflict hfind
          (Bool.of_not_eq_true hr)] at hx
        cases hx

/-- The exchange loop never removes an exchange from the broker. -/
theorem createExchangesPhase_monotone (metadata : List (String × String))
    (specs : List ExchangeSpec) (st : BrokerState) (e : BExchange)
    (he : e ∈ st.exchanges) :
    e ∈ (createExchangesPhase metadata specs st).1.exchanges := by
  induction specs generalizing st with
  | nil => exact he
  | cons spec rest ih =>
    rcases hfind : st.exchanges.find? (fun e => e.name = spec.name) with _ | ex
    · rw [createExchangesPhase_cons_create hfind]
      exact ih _ (List.mem_append_left _ he)
    · by_cases hr : spec.reuseIfExists
      · rcases hv : spec.validateIfExists with _ | v
        · rw [createExchangesPhase_cons_reuse hfind hr hv]
          exact ih _ he
        · by_cases hok : (validateExchangeErrors ex v).isEmpty
          · rw [createExchangesPhase_cons_validated hfind hr hv hok]
            exact ih _ he
          · rw [createExchangesPhase_cons_invalid hfind hr hv
              (Bool.of_not_eq_true hok)]
            exact he
      · rw [createExchangesPhase_cons_conflict hfind (Bool.of_not_eq_true hr)]
        exact he

/-- C4: when the exchange loop of `createSystem` meets a spec whose name
already exists on the broker and whose `reuseIfExists` is false, the whole
operation stops with the conflict error naming that exchange, in exactly the
state reached so far — the exchanges created by earlier iterations (and all
pre-existing ones) remain; no deletion is issued. -/
theorem createSystem_conflict_no_rollback
    (vhost templateName templateVersion : String) (qpfx : Option String)
    (now : String) (pre : List ExchangeSpec) (spec : ExchangeSpec)
    (post : List ExchangeSpec) (queues : List QueueSpec)
    (bindings : List BindingSpec) (st st' : BrokerState)
    (hpre : createExchangesPhase
      (generateManageMetadata (generateSystemId templateName vhost qpfx)
        templateName templateVersion now) pre st = (st', none))
    (hex : ∃ e, e ∈ st'.exchanges ∧ e.name = spec.name)
    (hreuse : spec.reuseIfExists = false) :
    createSystem ⟨vhost, pre ++ spec :: post, queues, bindings⟩ templateName
        templateVersion qpfx now st =
      (st', some ("交换机 \"" ++ spec.name ++ "\" 已存在，无法创建")) ∧
    (∀ e ∈ st.exchanges, e ∈ st'.exchanges) := by
  have hfind : (st'.exchanges.find? (fun e => e.name = spec.name)).isSome := by
    obtain ⟨e, he, hen⟩ := hex
    rw [List.find?_isSome]
    exact ⟨e, he, decide_eq_true hen⟩
  rcases hfo : st'.exchanges.find? (fun e => e.name = spec.name) with _ | ex
  · rw [hfo] at hfind
    cases hfind
  constructor
  · rw [createSystem]
    rw [createExchangesPhase_append _ pre (spec :: post) st st' hpre]
    rw [createExchangesPhase_cons_conflict hfo hreuse]
  · intro e he
    have hmono := createExchangesPhase_monotone
      (generateManageMetadata (generateSystemId templateName vhost qpfx)
        templateName templateVersion now) pre st e he
    rw [hpre] at hmono
    exact hmono

/-- Conflict scenario: the broker already has exchange `EX`; the rendered
config creates `NEW` first and then hits `EX` with `reuseIfExists = false`. -/
def conflictScenarioState : BrokerState :=
  ⟨[], [⟨"EX", "direct", true, false, false, []⟩], []⟩

/-- First exchange spec of the conflict scenario (fresh name). -/
def specNEW : ExchangeSpec := ⟨"NEW", "topic", true, false, none, [], false, none⟩

/-- Second exchange spec of the conflict scenario (name collision, no
reuse). -/
def specEX : ExchangeSpec := ⟨"EX", "direct", true, false, none, [], false, none⟩

/-- Metadata injected by the conflict-scenario run. -/
def conflictMetadata : List (String × String) :=
  generateManageMetadata (generateSystemId "tpl" "/" (some "pfx")) "tpl" "1.0"
    "2024-01-01T00:00:00Z"

/-- Broker state after the first (successful) iteration of the conflict
scenario: `NEW` created with metadata-merged arguments, `EX` untouched. -/
def conflictAfterPre : BrokerState :=
  ⟨[], [⟨"EX", "direct", true, false, false, []⟩,
        ⟨"NEW", "topic", true, false, false, conflictMetadata⟩], []⟩

/-- Witness for the conflict theorem: the concrete run aborts on `EX` with
the conflict message while `NEW` remains on the broker. -/
theorem createSystem_conflict_no_rollback_witness :
    (createExchangesPhase conflictMetadata [specNEW] conflictScenarioState =
      (conflictAfterPre, none)) ∧
    (∃ e, e ∈ conflictAfterPre.exchanges ∧ e.name = specEX.name) ∧
    specEX.reuseIfExists = false ∧
    (createSystem ⟨"/", [specNEW] ++ specEX :: [], [], []⟩ "tpl" "1.0"
        (some "pfx") "2024-01-01T00:00:00Z" conflictScenarioState =
      (conflictAfterPre,
        some ("交换机 \"" ++ specEX.name ++ "\" 已存在，无法创建")) ∧
      (∀ e ∈ conflictScenarioState.exchanges, e ∈ conflictAfterPre.exchanges)) :=
  ⟨by decide,
   ⟨⟨"EX", "direct", true, false, false, []⟩, by decide, rfl⟩,
   rfl,
   createSystem_conflict_no_rollback "/" "tpl" "1.0" (some "pfx")
     "2024-01-01T00:00:00Z" [specNEW] specEX [] [] [] conflictScenarioState
     conflictAfterPre (by decide)
     ⟨⟨"EX", "direct", true, false, false, []⟩, by decide, rfl⟩ rfl⟩

/-- Counterexample to "every call after `clearCredentials` fails":
starting from a fresh client, set credentials, run a vhost fetch to
completion, then clear the credentials.  The resulting state has no
credentials, yet `getVhosts` succeeds, answering the cached list instead of
failing — `clearCredentials` does not invalidate the vhost cache. -/
theorem clearCredentials_cached_getVhosts_counterexample :
    hasCredentials
        (clearCredentials (resolveVhostsFetch
          (getVhostsStep (setCredentials "u" "p" initialClientState)).1
          (Except.ok [⟨"/"⟩]))) = false ∧
    getVhostsStep
        (clearCredentials (resolveVhostsFetch
          (getVhostsStep (setCredentials "u" "p" initialClientState)).1
          (Except.ok [⟨"/"⟩]))) =
      (clearCredentials (resolveVhostsFetch
          (getVhostsStep (setCredentials "u" "p" initialClientState)).1
          (Except.ok [⟨"/"⟩])),
        VhostsStep.cached [⟨"/"⟩]) := by
  exact ⟨rfl, rfl⟩

/-- C6 (amended): `clearCredentials` blanks the credentials, so every call
that reaches the network guard fails with the unauthenticated error — but it
leaves the vhost cache untouched, so a `getVhosts` call that finds a cached
list returns it without failing. -/
theorem clearCredentials_guard (st : ClientState) :
    hasCredentials (clearCredentials st) = false ∧
    requestGuard (clearCredentials st) =
      Except.error "未设置凭证，请先调用 setCredentials()" ∧
    (clearCredentials st).vhostsCache = st.vhostsCache ∧
    (∀ l, st.vhostsCache = some l →
      getVhostsStep (clearCredentials st) =
        (clearCredentials st, VhostsStep.cached l)) := by
  refine ⟨rfl, ?_, rfl, ?_⟩
  · rw [requestGuard]
    simp [hasCredentials, clearCredentials]
  · intro l hl
    rw [getVhostsStep]
    have : (clearCredentials st).vhostsCache = some l := hl
    rw [this]

/-- Witness for the amended credential-clearing theorem on a client with a
populated cache. -/
theorem clearCredentials_guard_witness :
    (⟨"u", "p", some [⟨"/"⟩], false⟩ : ClientState).vhostsCache = some [⟨"/"⟩] ∧
    (hasCredentials (clearCredentials ⟨"u", "p", some [⟨"/"⟩], false⟩) = false ∧
      requestGuard (clearCredentials ⟨"u", "p", some [⟨"/"⟩], false⟩) =
        Except.error "未设置凭证，请先调用 setCredentials()" ∧
      (clearCredentials (⟨"u", "p", some [⟨"/"⟩], false⟩ : ClientState)).vhostsCache =
        (⟨"u", "p", some [⟨"/"⟩], false⟩ : ClientState).vhostsCache ∧
      (∀ l, (⟨"u", "p", some [⟨"/"⟩], false⟩ : ClientState).vhostsCache = some l →
        getVhostsStep (clearCredentials ⟨"u", "p", some [⟨"/"⟩], false⟩) =
          (clearCredentials ⟨"u", "p", some [⟨"/"⟩], false⟩,
            VhostsStep.cached l))) :=
  ⟨rfl, clearCredentials_guard ⟨"u", "p", some [⟨"/"⟩], false⟩⟩

/-- C7: the vhost-list fetch is single-flight — a call made while a fetch is
pending joins it without starting a new request; a new fetch starts only
when no fetch is pending and no cache exists; once a fetch resolves, later
calls answer from the cache; and a credential change invalidates both the
cache and the pending fetch. -/
theorem getVhosts_single_flight (st : ClientState) :
    (st.vhostsCache = none → st.vhostsFetchPending = true →
      getVhostsStep st = (st, VhostsStep.pending)) ∧
    (∀ st', getVhostsStep st = (st', VhostsStep.fetchStarted) →
      st.vhostsFetchPending = false ∧ st.vhostsCache = none ∧
        st'.vhostsFetchPending = true) ∧
    (∀ l, getVhostsStep (resolveVhostsFetch st (Except.ok l)) =
      (resolveVhostsFetch st (Except.ok l), VhostsStep.cached l)) ∧
    (∀ u p, (setCredentials u p st).vhostsCache = none ∧
      (setCredentials u p st).vhostsFetchPending = false) := by
  refine ⟨?_, ?_, ?_, fun u p => ⟨rfl, rfl⟩⟩
  · intro hc hp
    rw [getVhostsStep, hc, hp]
    rfl
  · intro st' hstep
    rw [getVhostsStep] at hstep
    rcases hc : st.vhostsCache with _ | l
    · rw [hc] at hstep
      by_cases hp : st.vhostsFetchPending
      · rw [if_pos hp] at hstep
        cases hstep
      · rw [if_neg hp] at hstep
        cases hstep
        exact ⟨Bool.of_not_eq_true hp, rfl, rfl⟩
    · rw [hc] at hstep
      cases hstep
  · intro l
    rw [getVhostsStep]
    rfl

/-- Witness for the single-flight theorem: a pending-fetch state joins the
in-flight fetch, and resolving yields the cached answer. -/
theorem getVhosts_single_flight_witness :
    ((⟨"u", "p", none, true⟩ : ClientState).vhostsCache = none) ∧
    ((⟨"u", "p", none, true⟩ : ClientState).vhostsFetchPending = true) ∧
    getVhostsStep ⟨"u", "p", none, true⟩ =
      (⟨"u", "p", none, true⟩, VhostsStep.pending) ∧
    getVhostsStep (resolveVhostsFetch ⟨"u", "p", none, true⟩
        (Except.ok [⟨"/"⟩])) =
      (resolveVhostsFetch ⟨"u", "p", none, true⟩ (Except.ok [⟨"/"⟩]),
        VhostsStep.cached [⟨"/"⟩]) :=
  ⟨rfl, rfl,
   (getVhosts_single_flight ⟨"u", "p", none, true⟩).1 rfl rfl,
   (getVhosts_single_flight ⟨"u", "p", none, true⟩).2.2.1 [⟨"/"⟩]⟩

/-- `takeWord` consumes exactly a word-character run that ends at a closing
brace. -/
theorem takeWord_word_append (w r : List Char) (hw : ∀ c ∈ w, isWordChar c = true) :
    takeWord (w ++ '\x7d' :: r) = (w, '\x7d' :: r) := by
  induction w with
  | nil =>
    rw [List.nil_append, takeWord]
    simp [show isWordChar '\x7d' = false from by decide]
  | cons c cs ih =>
    rw [List.cons_append, takeWord]
    rw [if_pos (hw c (List.mem_cons_self _ _))]
    rw [ih (fun c' hc' => hw c' (List.mem_cons_of_mem _ hc'))]

/-- Scan equation: a non-dollar character is copied unchanged. -/
theorem replaceScan_copy_char (fv : List (String × JVal)) (c : Char)
    (cs : List Char) (h : c ≠ '$') :
    replaceScan fv (c :: cs) = c :: replaceScan fv cs := by
  rw [replaceScan.eq_def]
  split
  · rename_i heq
    cases heq
  · rename_i rest heq
    injection heq with h1 _
    exact absurd h1 h
  · rename_i c2 cs2 hno heq
    injection heq with h1 h2
    subst h1
    subst h2
    rfl

/-- Scan equation: a well-formed placeholder is replaced by its substitution
text and scanning resumes after it. -/
theorem replaceScan_token (fv : List (String × JVal)) (w rest : List Char)
    (hw : ∀ c ∈ w, isWordChar c = true) (hne : w ≠ []) :
    replaceScan fv ('$' :: '\x7b' :: (w ++ '\x7d' :: rest)) =
      (substText fv (String.mk w)).data ++ replaceScan fv rest := by
  rw [replaceScan.eq_def]
  split
  · rename_i heq
    cases heq
  · rename_i rest' heq
    injection heq with h1 h2
    injection h2 with h2a h2b
    subst h2b
    split
    · rename_i w' r2 hin
      rw [takeWord_word_append w rest hw] at hin
      injection hin with ha hb
      injection hb with hb1 hb2
      subst ha
      subst hb2
      rw [if_neg (by simpa using hne)]
    · rename_i hno heq2
      rw [takeWord_word_append w rest hw] at heq2
      exact (heq2 w rest rfl).elim
  · rename_i c2 cs2 hno heq
    injection heq with h1 h2
    exact (hno (w ++ '\x7d' :: rest) h1.symm h2.symm).elim

/-- Scan equation: a dollar-free run is copied verbatim. -/
theorem replaceScan_copy (fv : List (String × JVal)) (l rest : List Char)
    (h : ∀ c ∈ l, c ≠ '$') :
    replaceScan fv (l ++ rest) = l ++ replaceScan fv rest := by
  induction l with
  | nil => rfl
  | cons c cs ih =>
    rw [List.cons_append,
      replaceScan_copy_char fv c _ (h c (List.mem_cons_self _ _)),
      ih (fun c' hc' => h c' (List.mem_cons_of_mem _ hc')), List.cons_append]

/-- Scanning the empty character list yields the empty list. -/
theorem replaceScan_nil (fv : List (String × JVal)) : replaceScan fv [] = [] := by
  rw [replaceScan]

/-- The whole-string regex accepts exactly one placeholder. -/
theorem singleTokenName_token (nm : String) (hne : nm ≠ "")
    (hw : ∀ c ∈ nm.data, isWordChar c = true) :
    singleTokenName ("$\x7b" ++ nm ++ "\x7d") = some nm := by
  have hdat : nm.data.isEmpty = false := by
    cases nm with
    | mk d =>
      cases d with
      | nil => exact absurd rfl hne
      | cons a as => rfl
  have hd : ("$\x7b" ++ nm ++ "\x7d").data =
      '$' :: '\x7b' :: (nm.data ++ '\x7d' :: []) := by
    cases nm with
    | mk d => simp
  have htw := takeWord_word_append nm.data [] hw
  rw [singleTokenName, hd]
  simp [htw, hdat]

/-- The whole-string regex rejects a string that does not start with a
dollar sign. -/
theorem singleTokenName_head_none (s : String) (c : Char) (cs : List Char)
    (hd : s.data = c :: cs) (hc : c ≠ '$') : singleTokenName s = none := by
  rw [singleTokenName, hd]
  split
  · rename_i rest heq
    injection heq with h1 _
    exact absurd h1 hc
  · rfl

/-- The whole-string regex rejects a placeholder followed by more text. -/
theorem singleTokenName_token_suffix_none (s : String) (w d : List Char)
    (hd : s.data = '$' :: '\x7b' :: (w ++ '\x7d' :: d))
    (hw : ∀ c ∈ w, isWordChar c = true) (hdne : d ≠ []) :
    singleTokenName s = none := by
  have htw := takeWord_word_append w d hw
  rw [singleTokenName, hd]
  simp [htw]
  cases d with
  | nil => exact absurd rfl hdne
  | cons a as => rfl

/-- Scanning a string made of a dollar-free prefix, one placeholder, and a
dollar-free suffix substitutes exactly the placeholder. -/
theorem replaceScan_embedded (fv : List (String × JVal)) (pfx nm sfx : String)
    (hw : ∀ c ∈ nm.data, isWordChar c = true) (hnm : nm ≠ "")
    (hp : ∀ c ∈ pfx.data, c ≠ '$') (hs : ∀ c ∈ sfx.data, c ≠ '$') :
    replaceScan fv (pfx ++ ("$\x7b" ++ nm ++ "\x7d") ++ sfx).data =
      pfx.data ++ ((substText fv nm).data ++ sfx.data) := by
  have hnmne : nm.data ≠ [] := by
    cases nm with
    | mk d =>
      cases d with
      | nil => exact absurd rfl hnm
      | cons a as => simp
  have hdata : (pfx ++ ("$\x7b" ++ nm ++ "\x7d") ++ sfx).data =
      pfx.data ++ ('$' :: '\x7b' :: (nm.data ++ '\x7d' :: sfx.data)) := by
    cases pfx with
    | mk pd =>
      cases nm with
      | mk nd =>
        cases sfx with
        | mk sd => simp
  have hsfx : replaceScan fv sfx.data = sfx.data := by
    have h := replaceScan_copy fv sfx.data [] hs
    rw [List.append_nil] at h
    rw [h, replaceScan_nil, List.append_nil]
  rw [hdata, replaceScan_copy fv pfx.data _ hp,
    replaceScan_token fv nm.data sfx.data hw hnmne, hsfx]

/-- C5: `renderTemplate` resolves a string field that is exactly one
placeholder to the merged parameter's native value (preserving its type); a
placeholder embedded amid other text is substituted by string concatenation
of its `String(...)` rendering; and a parameter absent from the merged
values substitutes as the empty string. -/
theorem renderTemplate_placeholder_semantics
    (params : List TParam) (values : List (String × JVal)) (nm pfx sfx : String)
    (hnm : nm ≠ "") (hw : ∀ c ∈ nm.data, isWordChar c = true)
    (hp : ∀ c ∈ pfx.data, c ≠ '$') (hs : ∀ c ∈ sfx.data, c ≠ '$')
    (hne : pfx ≠ "" ∨ sfx ≠ "") :
    (∀ v, lookupJV (mergeValues params values) nm = some v →
      replaceParams (mergeValues params values)
          (JVal.str ("$\x7b" ++ nm ++ "\x7d")) = v ∧
      replaceParams (mergeValues params values)
          (JVal.str (pfx ++ ("$\x7b" ++ nm ++ "\x7d") ++ sfx)) =
        JVal.str (pfx ++ jvalToString v ++ sfx)) ∧
    (lookupJV (mergeValues params values) nm = none →
      replaceParams (mergeValues params values)
          (JVal.str ("$\x7b" ++ nm ++ "\x7d")) = JVal.str "" ∧
      replaceParams (mergeValues params values)
          (JVal.str (pfx ++ ("$\x7b" ++ nm ++ "\x7d") ++ sfx)) =
        JVal.str (pfx ++ sfx)) ∧
    (renderTemplate ⟨params, [], [JVal.str ("$\x7b" ++ nm ++ "\x7d"),
        JVal.str (pfx ++ ("$\x7b" ++ nm ++ "\x7d") ++ sfx)], []⟩ values).queues =
      [replaceParams (mergeValues params values)
          (JVal.str ("$\x7b" ++ nm ++ "\x7d")),
       replaceParams (mergeValues params values)
          (JVal.str (pfx ++ ("$\x7b" ++ nm ++ "\x7d") ++ sfx))] := by
  have htok := singleTokenName_token nm hnm hw
  have hemb : singleTokenName (pfx ++ ("$\x7b" ++ nm ++ "\x7d") ++ sfx) = none := by
    by_cases hpfx : pfx = ""
    · subst hpfx
      have hsne : sfx ≠ "" := by
        rcases hne with h | h
        · exact absurd rfl h
        · exact h
      have hsd : sfx.data ≠ [] := by
        cases sfx with
        | mk sd =>
          cases sd with
          | nil => exact absurd rfl hsne
          | cons a as => simp
      refine singleTokenName_token_suffix_none _ nm.data sfx.data ?_ hw hsd
      cases nm with
      | mk nd =>
        cases sfx with
        | mk sd => simp
    · cases hpd : pfx.data with
      | nil =>
        exact absurd (by cases pfx with | mk d => cases hpd; rfl) hpfx
      | cons c cs =>
        refine singleTokenName_head_none _ c
          (cs ++ ('$' :: '\x7b' :: (nm.data ++ '\x7d' :: sfx.data))) ?_
          (hp c (by rw [hpd]; exact List.mem_cons_self _ _))
        cases pfx with
        | mk pd =>
          cases nm with
          | mk nd =>
            cases sfx with
            | mk sd =>
              simp at hpd ⊢
              rw [hpd]
              simp
  refine ⟨?_, ?_, rfl⟩
  · intro v hv
    constructor
    · simp only [replaceParams, htok, hv]
    · simp only [replaceParams, hemb]
      rw [replaceScan_embedded _ pfx nm sfx hw hnm hp hs]
      have hsub : substText (mergeValues params values) nm = jvalToString v := by
        rw [substText, hv]
      rw [hsub]
      have : pfx ++ jvalToString v ++ sfx =
          String.mk (pfx.data ++ ((jvalToString v).data ++ sfx.data)) := by
        generalize jvalToString v = t
        cases pfx with
        | mk pd =>
          cases t with
          | mk td =>
            cases sfx with
            | mk sd => exact congrArg String.mk (List.append_assoc pd td sd)
      rw [this]
  · intro hv
    constructor
    · simp only [replaceParams, htok, hv]
    · simp only [replaceParams, hemb]
      rw [replaceScan_embedded _ pfx nm sfx hw hnm hp hs]
      have hsub : substText (mergeValues params values) nm = "" := by
        rw [substText, hv]
      rw [hsub]
      have : pfx ++ sfx = String.mk (pfx.data ++ (("" : String).data ++ sfx.data)) := by
        cases pfx with
        | mk pd =>
          cases sfx with
          | mk sd => rfl
      rw [this]

/-- Witness for the placeholder-semantics theorem: the field `"$\x7bn\x7d"`
with `n = 5` (a number) renders to the number `5`, and `"a$\x7bn\x7db"`
renders to the string `"a5b"`. -/
theorem renderTemplate_placeholder_semantics_witness :
    lookupJV (mergeValues [⟨"n", none⟩] [("n", JVal.num 5)]) "n" =
      some (JVal.num 5) ∧
    (replaceParams (mergeValues [⟨"n", none⟩] [("n", JVal.num 5)])
        (JVal.str ("$\x7b" ++ "n" ++ "\x7d")) = JVal.num 5 ∧
      replaceParams (mergeValues [⟨"n", none⟩] [("n", JVal.num 5)])
          (JVal.str ("a" ++ ("$\x7b" ++ "n" ++ "\x7d") ++ "b")) =
        JVal.str ("a" ++ jvalToString (JVal.num 5) ++ "b")) :=
  ⟨rfl,
   (renderTemplate_placeholder_semantics [⟨"n", none⟩] [("n", JVal.num 5)]
       "n" "a" "b" (by decide) (by decide) (by decide) (by decide)
       (Or.inl (by decide))).1 (JVal.num 5) rfl⟩
